import Mathlib

/-!
Verification of the configuration-resolution core of mozilla/awsboxen.

The JavaScript source manipulates schema-less JSON-like documents.  We embed
such documents as the inductive type `JVal` (JSON values plus the JavaScript
`undefined`), with mappings represented as association lists that preserve
insertion order, exactly as JavaScript objects do for string keys.

The embedded functions follow `src/lib/config.js` (`mergeConfig`),
`src/lib/template.js` (`upgradeFromAWSBoxConfig` with its two waterfall steps
`setDefaultBoxenType` and `createDefaultBoxen`, `mergeProfileConfig`,
`cleanupNullDefinitions`, the two reference-resolution passes, and
`resolveParam`), and `src/lib/opts.js` (`getOption` and the
parameter-definition accumulation of `getOptions`).

JavaScript semantics are modelled faithfully for the JSON-representable
domain: truthiness, `typeof x === 'object'` (true for null, arrays and
objects), property reads returning `undefined` for missing keys, property
reads on `null`/`undefined` throwing `TypeError` (modelled as `Except`
errors where the source does not catch them), silent no-op assignment to
properties of primitives, and `for...in`/`Object.keys` enumeration in
insertion order.  A few exotic corners that plain JSON documents cannot
exhibit (indexing into strings with numeric keys, named properties created
on arrays) are modelled as no-ops/undefined and noted at the definitions
concerned; no claim below exercises them.
-/

namespace Awsboxen

/-- A JavaScript value as manipulated by the awsboxen config pipeline:
JSON values (null, booleans, numbers, strings, arrays, objects with
insertion-ordered unique string keys) plus `undefined`. -/
inductive JVal where
  | undef : JVal
  | null : JVal
  | bool (b : Bool) : JVal
  | num (n : Int) : JVal
  | str (s : String) : JVal
  | arr (elems : List JVal) : JVal
  | obj (fields : List (String × JVal)) : JVal
deriving Repr

mutual

/-- Boolean equality on `JVal` (structural). -/
def beqJVal : JVal → JVal → Bool
  | .undef, .undef => true
  | .null, .null => true
  | .bool a, .bool b => a == b
  | .num a, .num b => a == b
  | .str a, .str b => a == b
  | .arr xs, .arr ys => beqJList xs ys
  | .obj fs, .obj gs => beqJFields fs gs
  | _, _ => false

/-- Boolean equality on lists of `JVal`. -/
def beqJList : List JVal → List JVal → Bool
  | [], [] => true
  | x :: xs, y :: ys => beqJVal x y && beqJList xs ys
  | _, _ => false

/-- Boolean equality on object field lists. -/
def beqJFields : List (String × JVal) → List (String × JVal) → Bool
  | [], [] => true
  | (k, v) :: fs, (l, w) :: gs => k == l && beqJVal v w && beqJFields fs gs
  | _, _ => false

end


namespace JVal

/-- JavaScript truthiness of a value.  (Numbers are modelled as integers,
so `0` is the only falsy number.) -/
def truthy : JVal → Bool
  | undef => false
  | null => false
  | bool b => b
  | num n => n != 0
  | str s => s ≠ ""
  | arr _ => true
  | obj _ => true

/-- Whether `typeof v === 'object'` holds in JavaScript: true exactly for
null, arrays and objects. -/
def typeofObject : JVal → Bool
  | null => true
  | arr _ => true
  | obj _ => true
  | _ => false

end JVal

/-- Look up a key in an object's field list (first occurrence). -/
def lookupField : List (String × JVal) → String → Option JVal
  | [], _ => none
  | (k, v) :: rest, key => if k = key then some v else lookupField rest key

/-- Update the first occurrence of a key in a field list, or append the
binding if the key is absent.  This is exactly how assignment to a property
of a JavaScript object behaves with respect to key insertion order. -/
def setField : List (String × JVal) → String → JVal → List (String × JVal)
  | [], key, v => [(key, v)]
  | (k, w) :: rest, key, v =>
    if k = key then (k, v) :: rest else (k, w) :: setField rest key v

/-- Numeric value of a decimal digit character, if it is one. -/
def digitVal (c : Char) : Option Nat :=
  if '0'.toNat ≤ c.toNat ∧ c.toNat ≤ '9'.toNat then some (c.toNat - '0'.toNat)
  else none

/-- Fold a digit string into a number, failing on a non-digit. -/
def digitsToNat : List Char → Nat → Option Nat
  | [], acc => some acc
  | c :: cs, acc =>
    match digitVal c with
    | some d => digitsToNat cs (acc * 10 + d)
    | none => none

/-- Parse a string as a canonical array index, as JavaScript does for
array element access: a decimal numeral with no leading zeros. -/
def natIdx (s : String) : Option Nat :=
  match s.data with
  | [] => none
  | c :: cs =>
    if c = '0' ∧ cs ≠ [] then none
    else digitsToNat (c :: cs) 0

/-- Property read `v[key]`, returning `undefined` for a missing key or a
non-container base.  Reads on `null`/`undefined` throw in JavaScript; the
callers below either guard against that (`&&`, truthiness tests) or model
the throw explicitly.  Numeric indexing into strings is modelled as
`undefined` (only non-JSON corner cases differ). -/
def jsGetD (v : JVal) (key : String) : JVal :=
  match v with
  | .obj fs => (lookupField fs key).getD .undef
  | .arr xs =>
    match natIdx key with
    | some i => xs.getD i .undef
    | none => .undef
  | _ => JVal.undef

/-- The `hasOwnProperty` test.  For arrays the own properties are the
valid indices.  Primitives have no own properties in the JSON fragment. -/
def hasOwn (v : JVal) (key : String) : Bool :=
  match v with
  | .obj fs => (lookupField fs key).isSome
  | .arr xs =>
    match natIdx key with
    | some i => i < xs.length
    | none => false
  | _ => false

/-- Property assignment `v[key] = w`.  Objects update the first occurrence
or append (JavaScript insertion-order semantics).  Arrays update a valid
index or append at index = length (the only array writes the source
performs); writing a named property onto an array would leave JSON and is
modelled as a no-op.  Assignment to a property of a primitive is a silent
no-op in sloppy mode, which the source runs in. -/
def jsSet (v : JVal) (key : String) (w : JVal) : JVal :=
  match v with
  | .obj fs => .obj (setField fs key w)
  | .arr xs =>
    match natIdx key with
    | some i =>
      if i < xs.length then .arr (xs.set i w)
      else if i = xs.length then .arr (xs ++ [w])
      else .arr xs
    | none => .arr xs
  | other => other

/-- The `delete v[key]` statement restricted to the uses in the source:
removing a named key from an object.  Deleting from a primitive is a
silent no-op. -/
def delProp (v : JVal) (key : String) : JVal :=
  match v with
  | .obj fs => .obj (fs.filter (fun kv => kv.1 ≠ key))
  | other => other

/-- Enumerable own keys, as `Object.keys` / `for...in` produce them for the
JSON fragment: field names in insertion order for objects, index strings
for arrays, nothing for primitives.  (`Object.keys` on a primitive throws
under the ES5 engines of the source's era; the callers that can hit that
case model the throw explicitly.) -/
def keysForIn (v : JVal) : List String :=
  match v with
  | .obj fs => fs.map Prod.fst
  | .arr xs => (List.range xs.length).map toString
  | _ => []

/-- Kinds of runtime failure the pipeline can produce: an uncaught
JavaScript `TypeError`, or the explicit `unknown profile "..."` callback
error of `mergeProfileConfig`. -/
inductive PipeErr where
  | typeError (msg : String) : PipeErr
  | unknownProfile (name : String) : PipeErr
deriving Repr, DecidableEq

mutual

/-- The `mergeConfig` function of `src/lib/config.js`:

```js
function mergeConfig(orig, incoming) {
  if (typeof(orig) !== 'object') return incoming;
  if (incoming === null || typeof(incoming) !== 'object') return incoming;
  for (var key in incoming) {
    if (incoming.hasOwnProperty(key)) {
      if (orig.hasOwnProperty(key)) {
        orig[key] = mergeConfig(orig[key], incoming[key]);
      } else {
        orig[key] = incoming[key];
      }
    }
  }
  return orig;
}
```

`.error` models an uncaught `TypeError` (reached when `orig` is `null` and
`incoming` is an object or array with at least one key, so that
`orig.hasOwnProperty` is evaluated on `null`). -/
def mergeConfig (orig incoming : JVal) : Except PipeErr JVal :=
  if ¬ orig.typeofObject then .ok incoming
  else if beqJVal incoming .null || !incoming.typeofObject then .ok incoming
  else
    match incoming with
    | .obj fields => mergeEntries orig fields
    | .arr xs => mergeArrEntries orig 0 xs
    | _ => .ok incoming

/-- The `for key in incoming` loop of `mergeConfig` for an object
`incoming`, iterating over its fields in insertion order. -/
def mergeEntries (acc : JVal) (l : List (String × JVal)) : Except PipeErr JVal :=
  match l with
  | [] => .ok acc
  | (k, v) :: rest =>
    if beqJVal acc .null then .error (.typeError "null has no properties")
    else if hasOwn acc k then do
      let m ← mergeConfig (jsGetD acc k) v
      mergeEntries (jsSet acc k m) rest
    else mergeEntries (jsSet acc k v) rest

/-- The `for key in incoming` loop of `mergeConfig` for an array
`incoming`, whose enumerable keys are the index strings `"0"`, `"1"`, …
in order. -/
def mergeArrEntries (acc : JVal) (i : Nat) (l : List JVal) : Except PipeErr JVal :=
  match l with
  | [] => .ok acc
  | v :: rest =>
    if beqJVal acc .null then .error (.typeError "null has no properties")
    else if hasOwn acc (toString i) then do
      let m ← mergeConfig (jsGetD acc (toString i)) v
      mergeArrEntries (jsSet acc (toString i) m) (i + 1) rest
    else mergeArrEntries (jsSet acc (toString i) v) (i + 1) rest

end

/-- JavaScript `a || b`. -/
def jsOr (a b : JVal) : JVal := if a.truthy then a else b

/-- The recognised top-level configuration keys of `src/lib/template.js`. -/
def CONFIG_TOP_LEVEL_KEYS : List String :=
  ["Boxen", "Profiles", "AWSBoxenVersion", "AWSTemplateFormatVersion",
   "Description", "Parameters", "Resources", "Mappings", "Outputs"]

/-- The per-box body of `setDefaultBoxenType` in `src/lib/template.js`:

```js
if (cfg.Boxen[boxName] && !cfg.Boxen[boxName].Type) {
  if (!cfg.Boxen[boxName].Properties) {
    cfg.Boxen[boxName] = { 'Properties': cfg.Boxen[boxName] };
  }
  cfg.Boxen[boxName].Type = 'AWSBox';
}
```
-/
def upgradeBox (v : JVal) : JVal :=
  if ¬ v.truthy then v
  else if (jsGetD v "Type").truthy then v
  else
    let v' := if (jsGetD v "Properties").truthy then v else .obj [("Properties", v)]
    jsSet v' "Type" (.str "AWSBox")

/-- Step 1 of `upgradeFromAWSBoxConfig` (`setDefaultBoxenType`): make sure
`cfg.Boxen` exists (`if (!cfg.Boxen) cfg.Boxen = {}` — any falsy value is
replaced by an empty mapping) and upgrade each box declaration.  When
`cfg.Boxen` is a truthy primitive, `Object.keys` throws under the ES5
engines the source targets. -/
def setDefaultBoxenType (o : List (String × JVal)) :
    Except PipeErr (List (String × JVal)) :=
  let b0 : JVal :=
    match lookupField o "Boxen" with
    | some v => if v.truthy then v else .obj []
    | none => .obj []
  match b0 with
  | .obj fs =>
    .ok (setField o "Boxen" (.obj (fs.map (fun kv => (kv.1, upgradeBox kv.2)))))
  | .arr xs => .ok (setField o "Boxen" (.arr (xs.map upgradeBox)))
  | _ => .error (.typeError "Object.keys called on a non-object")

/-- Step 2 of `upgradeFromAWSBoxConfig` (`createDefaultBoxen`,
`src/lib/template.js` version): sweep every unrecognised top-level key into
a side mapping (deleting it from the document), and if any were found,
install them as the `Properties` of `Boxen.AWSBox`; a pre-existing
`AWSBox` entry is merged over the top of the swept-up keys:

```js
var origAWSBox = cfg.Boxen.AWSBox;
cfg.Boxen.AWSBox = { Type: 'AWSBox', Properties: extraTopLevelKeys };
if (typeof origAWSBox !== 'undefined') {
  cfg.Boxen.AWSBox = config.mergeConfig(cfg.Boxen.AWSBox, origAWSBox);
}
```

Reading `cfg.Boxen.AWSBox` throws when `cfg.Boxen` is `null`/`undefined`
(unreachable after step 1, which always installs a value). -/
def createDefaultBoxen (o : List (String × JVal)) :
    Except PipeErr (List (String × JVal)) :=
  let extras := o.filter (fun kv => !(CONFIG_TOP_LEVEL_KEYS.contains kv.1))
  if extras.isEmpty then .ok o
  else
    let kept := o.filter (fun kv => CONFIG_TOP_LEVEL_KEYS.contains kv.1)
    let boxen := (lookupField kept "Boxen").getD .undef
    if beqJVal boxen .undef || beqJVal boxen .null then
      .error (.typeError "cannot read property AWSBox")
    else
      let origAWSBox := jsGetD boxen "AWSBox"
      let newBox : JVal :=
        .obj [("Type", .str "AWSBox"), ("Properties", .obj extras)]
      if beqJVal origAWSBox .undef then
        .ok (setField kept "Boxen" (jsSet boxen "AWSBox" newBox))
      else do
        let m ← mergeConfig newBox origAWSBox
        .ok (setField kept "Boxen" (jsSet boxen "AWSBox" m))

/-- The `upgradeFromAWSBoxConfig` waterfall of `src/lib/template.js`:
`setDefaultBoxenType` followed by `createDefaultBoxen`.  The document is
the root mapping, given by its top-level field list. -/
def upgradeFromAWSBoxConfig (o : List (String × JVal)) :
    Except PipeErr (List (String × JVal)) :=
  setDefaultBoxenType o >>= createDefaultBoxen

/-- The `mergeProfileConfig` step of `loadTemplate`:

```js
var profileCfg = cfg.Profiles ? cfg.Profiles[opts.profile] : null;
if (!profileCfg) {
  if (opts.profile !== 'Default') {
    return cb('unknown profile "' + opts.profile + '"');
  }
} else {
  cfg = config.mergeConfig(cfg, profileCfg);
}
delete cfg.Profiles;
```

The ternary `cfg.Profiles ? cfg.Profiles[opts.profile] : null`: -/
def profileLookup (cfg : JVal) (profile : String) : JVal :=
  if (jsGetD cfg "Profiles").truthy then jsGetD (jsGetD cfg "Profiles") profile
  else JVal.null

/-- The body of `mergeProfileConfig` proper. -/
def mergeProfileConfig (cfg : JVal) (profile : String) : Except PipeErr JVal :=
  let profileCfg := profileLookup cfg profile
  if ¬ profileCfg.truthy then
    if profile ≠ "Default" then .error (.unknownProfile profile)
    else .ok (delProp cfg "Profiles")
  else do
    let m ← mergeConfig cfg profileCfg
    .ok (delProp m "Profiles")

/-- Whether a pipeline outcome is the `unknown profile "..."` error. -/
def isUnknownProfileErr : Except PipeErr JVal → Bool
  | .error (.unknownProfile _) => true
  | _ => false

/-- The `Boxen` half of `cleanupNullDefinitions`: delete every falsy entry.
Deleting an index from an array leaves a hole that reads back as
`undefined`.  `Object.keys` on a primitive throws. -/
def cleanupBoxen : JVal → Except PipeErr JVal
  | .obj fs => .ok (.obj (fs.filter (fun kv => kv.2.truthy)))
  | .arr xs => .ok (.arr (xs.map (fun v => if v.truthy then v else .undef)))
  | _ => .error (.typeError "Object.keys called on a non-object")

/-- The `Resources` half of `cleanupNullDefinitions`.  The source executes
`delete cfg.Resources.resName` — it deletes the literal property name
`"resName"` instead of the resource named by the loop variable, so a falsy
entry merely triggers removal of a (normally non-existent) `"resName"`
key and itself stays in place. -/
def cleanupResources : JVal → Except PipeErr JVal
  | .obj fs =>
    .ok (if fs.any (fun kv => !kv.2.truthy) then delProp (.obj fs) "resName"
         else .obj fs)
  | .arr xs => .ok (.arr xs)
  | _ => .error (.typeError "Object.keys called on a non-object")

/-- The `cleanupNullDefinitions` step of `loadTemplate` in
`src/lib/template.js` (lines 210-222), including its `resName` slip. -/
def cleanupNullDefinitions (cfg : JVal) : Except PipeErr JVal := do
  let b ← cleanupBoxen (jsGetD cfg "Boxen")
  let cfg1 := jsSet cfg "Boxen" b
  let r ← cleanupResources (jsGetD cfg1 "Resources")
  pure (jsSet cfg1 "Resources" r)

/-- The normalized options relevant to parameter resolution, as produced
by `getOptions` in `src/lib/opts.js`. -/
structure Opts where
  define : JVal
  aws_region : JVal
  stack_name : JVal
deriving Repr

/-- The `resolveParam` function of `src/lib/template.js`:

```js
function resolveParam(name, opts, cfg) {
  if (opts.define && opts.define.hasOwnProperty(name)) {
    return opts.define[name];
  }
  if (cfg.Parameters && cfg.Parameters.hasOwnProperty(name)) {
    return (cfg.Parameters[name] || {}).Default;
  }
  if (name === 'AWS::Region') {
    return opts.aws_region;
  }
  if (name === 'AWS::StackName') {
    return opts.stack_name || undefined;
  }
}
```

Falling off the end returns `undefined`. -/
def resolveParam (name : String) (o : Opts) (cfg : JVal) : JVal :=
  if o.define.truthy ∧ hasOwn o.define name then jsGetD o.define name
  else if (jsGetD cfg "Parameters").truthy ∧ hasOwn (jsGetD cfg "Parameters") name then
    jsGetD (jsOr (jsGetD (jsGetD cfg "Parameters") name) (.obj [])) "Default"
  else if name = "AWS::Region" then o.aws_region
  else if name = "AWS::StackName" then jsOr o.stack_name .undef
  else JVal.undef

/-- `resolveParam` applied to the value found under a `Ref` key.  The
source passes that value directly; reference names in configuration files
are strings (a non-string name would be string-coerced by JavaScript's
property lookup, a corner no claim exercises). -/
def resolveParamJ (v : JVal) (o : Opts) (cfg : JVal) : JVal :=
  match v with
  | .str s => resolveParam s o cfg
  | _ => .undef

mutual

/-- Pass 1 of `resolveFunctionCallsInBoxenDefinitions`: the `traverse`
walk that replaces every single-key `{Ref: name}` node whose name resolves
(`typeof value !== 'undefined'`) by the resolved value, and leaves it in
place otherwise.  Lookups read the document `cfg` as given; the replacement
value is spliced in verbatim. -/
def resolveRefs (o : Opts) (cfg : JVal) : JVal → JVal
  | .obj [(k, v)] =>
    if k = "Ref" then
      let r := resolveParamJ v o cfg
      if beqJVal r .undef then .obj [("Ref", resolveRefs o cfg v)] else r
    else .obj [(k, resolveRefs o cfg v)]
  | .obj fs => .obj (resolveRefsFields o cfg fs)
  | .arr xs => .arr (resolveRefsElems o cfg xs)
  | x => x

/-- Children traversal of `resolveRefs` over object fields. -/
def resolveRefsFields (o : Opts) (cfg : JVal) :
    List (String × JVal) → List (String × JVal)
  | [] => []
  | (k, v) :: rest => (k, resolveRefs o cfg v) :: resolveRefsFields o cfg rest

/-- Children traversal of `resolveRefs` over array elements. -/
def resolveRefsElems (o : Opts) (cfg : JVal) : List JVal → List JVal
  | [] => []
  | v :: rest => resolveRefs o cfg v :: resolveRefsElems o cfg rest

end

/-- String coercion of a JavaScript value used as a property key.
Composite values are approximated (no claim exercises them). -/
def toPropertyKey : JVal → String
  | .str s => s
  | .num n => toString n
  | .bool b => toString b
  | .null => "null"
  | .undef => "undefined"
  | .arr _ => ""
  | .obj _ => "[object Object]"

/-- A property read `v[key]` inside the `try` block of the `Fn::FindInMap`
pass: `none` models a thrown `TypeError` (base is `null`/`undefined`),
`some w` a successful read (`w` may be `undefined`). -/
def jsMember (v : JVal) (key : String) : Option JVal :=
  match v with
  | .undef => none
  | .null => none
  | other => some (jsGetD other key)

/-- The `try` block of the `Fn::FindInMap` pass:

```js
var mapped = cfg.Mappings[obj['Fn::FindInMap'][0]];
mapped = mapped[obj['Fn::FindInMap'][1]];
mapped = mapped[obj['Fn::FindInMap'][2]];
this.update(mapped);
```

`none` means a `TypeError` was thrown and caught, so the node is left
unchanged; `some w` means `this.update(w)` runs — note that `w` is
`undefined` (not a throw) when only the final lookup key is missing. -/
def findInMapValue (cfg : JVal) (v : JVal) : Option JVal := do
  let k0 ← jsMember v "0"
  let m0 ← jsMember (jsGetD cfg "Mappings") (toPropertyKey k0)
  let k1 ← jsMember v "1"
  let m1 ← jsMember m0 (toPropertyKey k1)
  let k2 ← jsMember v "2"
  jsMember m1 (toPropertyKey k2)

mutual

/-- Pass 2 of `resolveFunctionCallsInBoxenDefinitions`: the `traverse`
walk that replaces every single-key `{Fn::FindInMap: [...]}` node by the
looked-up value when the guarded lookup chain does not throw, and leaves
the node unchanged when it does (`catch (e) { }`). -/
def resolveMaps (cfg : JVal) : JVal → JVal
  | .obj [(k, v)] =>
    if k = "Fn::FindInMap" then
      match findInMapValue cfg v with
      | some m => m
      | none => .obj [("Fn::FindInMap", resolveMaps cfg v)]
    else .obj [(k, resolveMaps cfg v)]
  | .obj fs => .obj (resolveMapsFields cfg fs)
  | .arr xs => .arr (resolveMapsElems cfg xs)
  | x => x

/-- Children traversal of `resolveMaps` over object fields. -/
def resolveMapsFields (cfg : JVal) :
    List (String × JVal) → List (String × JVal)
  | [] => []
  | (k, v) :: rest => (k, resolveMaps cfg v) :: resolveMapsFields cfg rest

/-- Children traversal of `resolveMaps` over array elements. -/
def resolveMapsElems (cfg : JVal) : List JVal → List JVal
  | [] => []
  | v :: rest => resolveMaps cfg v :: resolveMapsElems cfg rest

end

/-- Replace `_` by `-` in an option name, as
`name.replace(/_/g, '-')` does. -/
def dashify (s : String) : String :=
  ⟨s.data.map (fun c => if c = '_' then '-' else c)⟩

/-- The `getOption` helper of `src/lib/opts.js`: look the option up under
its bare name, its `--option-name` spelling, then its `<option-name>`
spelling; `undefined` if none is present. -/
def getOption (name : String) (options : JVal) : JVal :=
  if hasOwn options name then jsGetD options name
  else if hasOwn options ("--" ++ dashify name) then
    jsGetD options ("--" ++ dashify name)
  else if hasOwn options ("<" ++ dashify name ++ ">") then
    jsGetD options ("<" ++ dashify name ++ ">")
  else JVal.undef

/-- The `stack_name` normalization of `getOptions`:
`opts.stack_name = getOption('stack_name', options); if (!opts.stack_name)
opts.stack_name = '';`. -/
def optsStackName (options : JVal) : JVal :=
  jsOr (getOption "stack_name" options) (.str "")

/-- Split a list of characters on a separator, like
`String.prototype.split` with a single-character separator. -/
def splitCharsOn (sep : Char) : List Char → List (List Char)
  | [] => [[]]
  | c :: cs =>
    match splitCharsOn sep cs with
    | [] => [[c]]
    | g :: gs => if c = sep then [] :: g :: gs else (c :: g) :: gs

/-- `s.split(sep)` for a single-character separator. -/
def jsSplit (sep : Char) (s : String) : List String :=
  (splitCharsOn sep s.data).map (fun cs => ⟨cs⟩)

/-- Join strings with a separator, like `Array.prototype.join`. -/
def joinWith (sep : String) : List String → String
  | [] => ""
  | [x] => x
  | x :: xs => x ++ sep ++ joinWith sep xs

/-- Parse one `key=value` definition, as `getOptions` does:
`var bits = definition.split('='); opts.define[bits[0]] =
bits.slice(1).join('=');`. -/
def parseDefinePair (s : String) : String × JVal :=
  let bits := jsSplit '=' s
  (bits.headD "", .str (joinWith "=" bits.tail))

/-- Load one parsed parameter file into the accumulating `opts.define`
mapping: `for (var k in data) { opts.define[k] = data[k]; }`. -/
def applyParamData (d : List (String × JVal)) (data : JVal) :
    List (String × JVal) :=
  (keysForIn data).foldl (fun d k => setField d k (jsGetD data k)) d

/-- Load a sequence of parsed parameter files, strictly in order
(`async.eachSeries`). -/
def applyParamFiles (d : List (String × JVal)) (datas : List JVal) :
    List (String × JVal) :=
  datas.foldl applyParamData d

/-- Apply one command-line `key=value[,key=value...]` definition string. -/
def applyOneDefineStr (d : List (String × JVal)) (s : String) :
    List (String × JVal) :=
  (jsSplit ',' s).foldl (fun d t => setField d (parseDefinePair t).1 (parseDefinePair t).2) d

/-- Apply the command-line definition strings, in order, after the files. -/
def applyCliDefines (d : List (String × JVal)) (defs : List String) :
    List (String × JVal) :=
  defs.foldl applyOneDefineStr d

/-- The `opts.define` mapping produced by `getOptions` in
`src/lib/opts.js` (lines 263-319): start from `{}`, fold in each parameter
file's parsed contents in the order the files were given, then overwrite
with the explicit command-line definitions. -/
def buildDefines (datas : List JVal) (cliDefs : List String) :
    List (String × JVal) :=
  applyCliDefines (applyParamFiles [] datas) cliDefs

mutual

/-- Well-formedness of a value as a JavaScript runtime value: every object
in the tree has pairwise-distinct keys.  Every value a JavaScript program
can actually build satisfies this; association lists with duplicated keys
are an artifact of the embedding. -/
def wf : JVal → Bool
  | .obj fs => decide ((fs.map Prod.fst).Nodup) && wfFields fs
  | .arr xs => wfElems xs
  | _ => true

/-- Well-formedness of every value in an object's field list. -/
def wfFields : List (String × JVal) → Bool
  | [] => true
  | (_, v) :: rest => wf v && wfFields rest

/-- Well-formedness of every value in an array. -/
def wfElems : List JVal → Bool
  | [] => true
  | v :: rest => wf v && wfElems rest

end

/-- Whether a value is an object (a mapping). -/
def isObjKind : JVal → Bool
  | .obj _ => true
  | _ => false

/-- Whether a pipeline error is a `TypeError`. -/
def PipeErr.isTypeError : PipeErr → Bool
  | .typeError _ => true
  | _ => false

/-- All `key=value` pairs contributed by the command-line definition
strings, in application order (specification-side description). -/
def cliPairs (defs : List String) : List (String × JVal) :=
  ((defs.map (jsSplit ',')).flatten).map parseDefinePair

/-- The value the last command-line definition assigns to a key, if any
definition mentions it (specification-side description). -/
def lastCliDef (defs : List String) (k : String) : Option JVal :=
  ((cliPairs defs).reverse.find? (fun p => p.1 == k)).map Prod.snd

/-- The value contributed by the last parameter file that defines a key,
if any file does (specification-side description). -/
def lastFileDef (datas : List JVal) (k : String) : Option JVal :=
  (datas.reverse.find? (fun d => (keysForIn d).contains k)).map
    (fun d => jsGetD d k)

/-- The state every `Boxen` entry is left in by `setDefaultBoxenType`:
if the value is truthy it is an object with a truthy `Type` and (for
runtime-representable inputs) duplicate-free keys.  Such an entry is a
fixed point of the per-box upgrade. -/
def boxGood (v : JVal) : Prop :=
  (v.truthy = true → (jsGetD v "Type").truthy = true) ∧
  (∀ afs, v = .obj afs → (afs.map Prod.fst).Nodup)

/-- The state the `Boxen` section is left in by `setDefaultBoxenType`:
an object or array whose every entry is `boxGood`. -/
def boxenGood (B : JVal) : Prop :=
  (∃ gs, B = .obj gs ∧ ∀ p ∈ gs, boxGood p.2) ∨
  (∃ ys, B = .arr ys ∧ ∀ v ∈ ys, boxGood v)

/-!  With the embedding complete, the remainder of the file develops the
theory: decidability instances, supporting lemmas, and one theorem (with
counterexample and witness companions where required) per specification
claim. -/

mutual

theorem beqJVal_iff : ∀ a b : JVal, beqJVal a b = true ↔ a = b
  | .undef, .undef => by simp [beqJVal]
  | .null, .null => by simp [beqJVal]
  | .bool a, .bool b => by simp [beqJVal]
  | .num a, .num b => by simp [beqJVal]
  | .str a, .str b => by simp [beqJVal]
  | .arr xs, .arr ys => by simp [beqJVal, beqJList_iff xs ys]
  | .obj fs, .obj gs => by simp [beqJVal, beqJFields_iff fs gs]
  | .undef, .null | .undef, .bool _ | .undef, .num _ | .undef, .str _
  | .undef, .arr _ | .undef, .obj _
  | .null, .undef | .null, .bool _ | .null, .num _ | .null, .str _
  | .null, .arr _ | .null, .obj _
  | .bool _, .undef | .bool _, .null | .bool _, .num _ | .bool _, .str _
  | .bool _, .arr _ | .bool _, .obj _
  | .num _, .undef | .num _, .null | .num _, .bool _ | .num _, .str _
  | .num _, .arr _ | .num _, .obj _
  | .str _, .undef | .str _, .null | .str _, .bool _ | .str _, .num _
  | .str _, .arr _ | .str _, .obj _
  | .arr _, .undef | .arr _, .null | .arr _, .bool _ | .arr _, .num _
  | .arr _, .str _ | .arr _, .obj _
  | .obj _, .undef | .obj _, .null | .obj _, .bool _ | .obj _, .num _
  | .obj _, .str _ | .obj _, .arr _ => by simp [beqJVal]

theorem beqJList_iff : ∀ xs ys : List JVal, beqJList xs ys = true ↔ xs = ys
  | [], [] => by simp [beqJList]
  | [], _ :: _ => by simp [beqJList]
  | _ :: _, [] => by simp [beqJList]
  | x :: xs, y :: ys => by
    simp [beqJList, beqJVal_iff x y, beqJList_iff xs ys]

theorem beqJFields_iff :
    ∀ fs gs : List (String × JVal), beqJFields fs gs = true ↔ fs = gs
  | [], [] => by simp [beqJFields]
  | [], _ :: _ => by simp [beqJFields]
  | _ :: _, [] => by simp [beqJFields]
  | (k, v) :: fs, (l, w) :: gs => by
    simp [beqJFields, beqJVal_iff v w, beqJFields_iff fs gs, and_assoc]

end

instance : DecidableEq JVal := fun a b =>
  decidable_of_iff (beqJVal a b = true) (beqJVal_iff a b)

instance {α β : Type} [DecidableEq α] [DecidableEq β] :
    DecidableEq (Except α β) := fun a b =>
  match a, b with
  | .ok x, .ok y => decidable_of_iff (x = y) (by simp)
  | .error x, .error y => decidable_of_iff (x = y) (by simp)
  | .ok _, .error _ => isFalse (by simp)
  | .error _, .ok _ => isFalse (by simp)

section ListLemmas

theorem lookup_setField_self (l : List (String × JVal)) (k : String) (v : JVal) :
    lookupField (setField l k v) k = some v := by
  induction l with
  | nil => simp [setField, lookupField]
  | cons p rest ih =>
    obtain ⟨k1, v1⟩ := p
    by_cases hp : k1 = k
    · subst hp
      simp [setField, lookupField]
    · simp [setField, lookupField, hp, ih]

theorem lookup_setField_ne (l : List (String × JVal)) (k k' : String) (v : JVal)
    (h : k' ≠ k) :
    lookupField (setField l k v) k' = lookupField l k' := by
  induction l with
  | nil => simp [setField, lookupField, Ne.symm h]
  | cons p rest ih =>
    obtain ⟨k1, v1⟩ := p
    by_cases hp : k1 = k
    · subst hp
      simp [setField, lookupField, Ne.symm h]
    · by_cases hk1 : k1 = k'
      · simp [setField, lookupField, hp, hk1, h]
      · simp [setField, lookupField, hp, hk1, ih]

theorem setField_self_eq (l : List (String × JVal)) (k : String) (v : JVal)
    (h : lookupField l k = some v) : setField l k v = l := by
  induction l with
  | nil => simp [lookupField] at h
  | cons p rest ih =>
    obtain ⟨k1, v1⟩ := p
    by_cases hp : k1 = k
    · subst hp
      simp [lookupField] at h
      simp [setField, h]
    · simp [lookupField, hp] at h
      simp [setField, hp, ih h]

theorem keys_setField_mem (l : List (String × JVal)) (k : String) (v : JVal)
    (p : String × JVal) (h : p ∈ setField l k v) :
    p.1 ∈ l.map Prod.fst ∨ p.1 = k := by
  induction l with
  | nil =>
    simp [setField] at h
    simp [h]
  | cons q rest ih =>
    obtain ⟨k1, v1⟩ := q
    by_cases hq : k1 = k
    · subst hq
      simp [setField] at h
      rcases h with h | h
      · right
        simp [h]
      · left
        simp only [List.map_cons, List.mem_cons]
        exact Or.inr (List.mem_map_of_mem Prod.fst h)
    · simp [setField, hq] at h
      rcases h with h | h
      · left
        simp [h]
      · rcases ih h with h' | h'
        · left
          simp only [List.map_cons, List.mem_cons]
          exact Or.inr h'
        · right
          exact h'

theorem values_setField_mem (l : List (String × JVal)) (k : String) (v : JVal)
    (p : String × JVal) (h : p ∈ setField l k v) :
    p.2 = v ∨ p ∈ l := by
  induction l with
  | nil =>
    simp [setField] at h
    simp [h]
  | cons q rest ih =>
    obtain ⟨k1, v1⟩ := q
    by_cases hq : k1 = k
    · subst hq
      simp [setField] at h
      rcases h with h | h
      · left
        simp [h]
      · right
        simp [h]
    · simp [setField, hq] at h
      rcases h with h | h
      · right
        simp [h]
      · rcases ih h with h' | h'
        · left
          exact h'
        · right
          simp [h']

theorem lookup_filter_keys (l : List (String × JVal)) (pred : String → Bool)
    (k : String) (hk : pred k = true) :
    lookupField (l.filter (fun kv => pred kv.1)) k = lookupField l k := by
  induction l with
  | nil => simp [lookupField]
  | cons p rest ih =>
    obtain ⟨k1, v1⟩ := p
    by_cases hp : k1 = k
    · subst hp
      simp [List.filter, hk, lookupField, ih]
    · by_cases hpred : pred k1
      · simp [List.filter, hpred, lookupField, hp, ih]
      · have hf : pred k1 = false := by simpa using hpred
        simp [List.filter, hf, lookupField, hp, ih]

theorem lookup_some_mem (l : List (String × JVal)) (k : String) (v : JVal)
    (h : lookupField l k = some v) : (k, v) ∈ l := by
  induction l with
  | nil => simp [lookupField] at h
  | cons p rest ih =>
    obtain ⟨k1, v1⟩ := p
    by_cases hp : k1 = k
    · subst hp
      simp [lookupField] at h
      simp [h]
    · simp [lookupField, hp] at h
      exact List.mem_cons_of_mem _ (ih h)

theorem mem_lookup_nodup (l : List (String × JVal)) (k : String) (v : JVal)
    (hnd : (l.map Prod.fst).Nodup) (h : (k, v) ∈ l) :
    lookupField l k = some v := by
  induction l with
  | nil => simp at h
  | cons p rest ih =>
    rw [List.map_cons, List.nodup_cons] at hnd
    obtain ⟨hnotin, hnd2⟩ := hnd
    rcases List.mem_cons.mp h with h | h
    · rw [← h]
      simp [lookupField]
    · have hk : k ∈ rest.map Prod.fst := by
        simpa using List.mem_map_of_mem Prod.fst h
      have hne : p.1 ≠ k := fun hc => hnotin (hc ▸ hk)
      simp [lookupField, hne]
      exact ih hnd2 h

theorem lookup_map_value (l : List (String × JVal)) (f : JVal → JVal)
    (k : String) :
    lookupField (l.map (fun kv => (kv.1, f kv.2))) k = (lookupField l k).map f := by
  induction l with
  | nil => simp [lookupField]
  | cons p rest ih =>
    obtain ⟨k1, v1⟩ := p
    by_cases hp : k1 = k
    · simp [lookupField, hp]
    · simp [lookupField, hp, ih]

theorem setField_keys_nodup (l : List (String × JVal)) (k : String) (v : JVal)
    (hnd : (l.map Prod.fst).Nodup) :
    ((setField l k v).map Prod.fst).Nodup := by
  induction l with
  | nil => simp [setField]
  | cons p rest ih =>
    obtain ⟨k1, v1⟩ := p
    rw [List.map_cons, List.nodup_cons] at hnd
    obtain ⟨hnotin, hnd2⟩ := hnd
    by_cases hp : k1 = k
    · subst hp
      have hset : setField ((k1, v1) :: rest) k1 v = (k1, v) :: rest := by
        simp [setField]
      rw [hset]
      simp only [List.map_cons, List.nodup_cons]
      exact ⟨hnotin, hnd2⟩
    · simp only [setField, if_neg hp, List.map_cons, List.nodup_cons]
      refine ⟨?_, ih hnd2⟩
      intro hc
      rcases List.mem_map.mp hc with ⟨q, hq, hq1⟩
      rcases keys_setField_mem rest k v q hq with h' | h'
      · exact hnotin (hq1 ▸ h')
      · exact hp (by rw [← hq1, h'])

end ListLemmas

section WfLemmas

theorem wfFields_mem (l : List (String × JVal)) (k : String) (v : JVal)
    (hwf : wfFields l = true) (h : (k, v) ∈ l) : wf v = true := by
  induction l with
  | nil => simp at h
  | cons p rest ih =>
    obtain ⟨k1, v1⟩ := p
    simp [wfFields] at hwf
    rcases List.mem_cons.mp h with h | h
    · cases h
      exact hwf.1
    · exact ih hwf.2 h

theorem wf_obj_nodup (l : List (String × JVal)) (hwf : wf (.obj l) = true) :
    (l.map Prod.fst).Nodup := by
  simp [wf] at hwf
  exact hwf.1

theorem wf_obj_value (l : List (String × JVal)) (k : String) (v : JVal)
    (hwf : wf (.obj l) = true) (h : (k, v) ∈ l) : wf v = true := by
  simp [wf] at hwf
  exact wfFields_mem l k v hwf.2 h

end WfLemmas

section MergeLemmas

theorem mergeConfig_incoming_wins (orig incoming : JVal)
    (h : orig.typeofObject = false ∨ incoming = .null ∨
      incoming.typeofObject = false) :
    mergeConfig orig incoming = .ok incoming := by
  cases orig <;> cases incoming <;>
    simp_all [mergeConfig, JVal.typeofObject, beqJVal]

theorem isObjKind_jsSet (acc : JVal) (k : String) (m : JVal)
    (h : isObjKind acc = true) : isObjKind (jsSet acc k m) = true := by
  cases acc <;> simp [isObjKind, jsSet] at h ⊢

theorem jsGetD_set_self (acc : JVal) (k : String) (v : JVal)
    (h : isObjKind acc = true) : jsGetD (jsSet acc k v) k = v := by
  cases acc <;> simp [isObjKind] at h
  simp [jsSet, jsGetD, lookup_setField_self]

theorem jsGetD_set_ne (acc : JVal) (k k' : String) (v : JVal)
    (hobj : isObjKind acc = true) (h : k' ≠ k) :
    jsGetD (jsSet acc k v) k' = jsGetD acc k' := by
  cases acc <;> simp [isObjKind] at hobj
  simp [jsSet, jsGetD, lookup_setField_ne _ _ _ _ h]

theorem hasOwn_set_ne (acc : JVal) (k k' : String) (v : JVal)
    (hobj : isObjKind acc = true) (h : k' ≠ k) :
    hasOwn (jsSet acc k v) k' = hasOwn acc k' := by
  cases acc <;> simp [isObjKind] at hobj
  simp [jsSet, hasOwn, lookup_setField_ne _ _ _ _ h]

theorem mergeEntries_obj (l : List (String × JVal)) :
    ∀ acc r : JVal, isObjKind acc = true → mergeEntries acc l = .ok r →
      isObjKind r = true := by
  induction l with
  | nil =>
    intro acc r hacc h
    simp [mergeEntries] at h
    rw [← h]
    exact hacc
  | cons p rest ih =>
    intro acc r hacc h
    obtain ⟨k1, v1⟩ := p
    have hnn : ¬ acc = JVal.null := by
      intro hc
      rw [hc] at hacc
      simp [isObjKind] at hacc
    rw [mergeEntries, if_neg (by simp only [beqJVal_iff]; exact hnn)] at h
    by_cases how : hasOwn acc k1
    · rw [if_pos how] at h
      cases hm : mergeConfig (jsGetD acc k1) v1 with
      | error e =>
        rw [hm] at h
        simp [Bind.bind, Except.bind] at h
      | ok m =>
        rw [hm] at h
        simp only [Bind.bind, Except.bind] at h
        exact ih (jsSet acc k1 m) r (isObjKind_jsSet acc k1 m hacc) h
    · rw [if_neg how] at h
      exact ih (jsSet acc k1 v1) r (isObjKind_jsSet acc k1 v1 hacc) h

theorem mergeEntries_get_notin (l : List (String × JVal)) :
    ∀ (acc r : JVal) (k : String), isObjKind acc = true →
      k ∉ l.map Prod.fst → mergeEntries acc l = .ok r →
      jsGetD r k = jsGetD acc k := by
  induction l with
  | nil =>
    intro acc r k hacc _ h
    simp [mergeEntries] at h
    rw [← h]
  | cons p rest ih =>
    intro acc r k hacc hnotin h
    obtain ⟨k1, v1⟩ := p
    simp only [List.map_cons, List.mem_cons] at hnotin
    push_neg at hnotin
    obtain ⟨hne, hnotin⟩ := hnotin
    have hnn : ¬ acc = JVal.null := by
      intro hc
      rw [hc] at hacc
      simp [isObjKind] at hacc
    rw [mergeEntries, if_neg (by simp only [beqJVal_iff]; exact hnn)] at h
    by_cases how : hasOwn acc k1
    · rw [if_pos how] at h
      cases hm : mergeConfig (jsGetD acc k1) v1 with
      | error e =>
        rw [hm] at h
        simp [Bind.bind, Except.bind] at h
      | ok m =>
        rw [hm] at h
        simp only [Bind.bind, Except.bind] at h
        have := ih (jsSet acc k1 m) r k (isObjKind_jsSet acc k1 m hacc) hnotin h
        rw [this, jsGetD_set_ne acc k1 k m hacc hne]
    · rw [if_neg how] at h
      have := ih (jsSet acc k1 v1) r k (isObjKind_jsSet acc k1 v1 hacc) hnotin h
      rw [this, jsGetD_set_ne acc k1 k v1 hacc hne]

theorem mergeEntries_at_key (l : List (String × JVal)) :
    ∀ (acc r : JVal) (k : String) (v : JVal), isObjKind acc = true →
      (l.map Prod.fst).Nodup → (k, v) ∈ l → hasOwn acc k = true →
      mergeEntries acc l = .ok r →
      ∃ m, mergeConfig (jsGetD acc k) v = .ok m ∧ jsGetD r k = m := by
  induction l with
  | nil =>
    intro acc r k v _ _ hmem _ _
    simp at hmem
  | cons p rest ih =>
    intro acc r k v hacc hnd hmem how h
    obtain ⟨k1, v1⟩ := p
    rw [List.map_cons, List.nodup_cons] at hnd
    obtain ⟨hk1notin, hnd2⟩ := hnd
    have hnn : ¬ acc = JVal.null := by
      intro hc
      rw [hc] at hacc
      simp [isObjKind] at hacc
    rw [mergeEntries, if_neg (by simp only [beqJVal_iff]; exact hnn)] at h
    rcases List.mem_cons.mp hmem with heq | hmem2
    · obtain ⟨hk, hv⟩ : k1 = k ∧ v1 = v := by
        have h1 := congrArg Prod.fst heq
        have h2 := congrArg Prod.snd heq
        exact ⟨h1.symm, h2.symm⟩
      subst hk
      subst hv
      rw [if_pos how] at h
      cases hm : mergeConfig (jsGetD acc k1) v1 with
      | error e =>
        rw [hm] at h
        simp [Bind.bind, Except.bind] at h
      | ok m =>
        rw [hm] at h
        simp only [Bind.bind, Except.bind] at h
        refine ⟨m, rfl, ?_⟩
        have hfin := mergeEntries_get_notin rest (jsSet acc k1 m) r k1
          (isObjKind_jsSet acc k1 m hacc) hk1notin h
        rw [hfin, jsGetD_set_self acc k1 m hacc]
    · have hne : k ≠ k1 := by
        intro hc
        apply hk1notin
        rw [← hc]
        simpa using List.mem_map_of_mem Prod.fst hmem2
      by_cases how1 : hasOwn acc k1
      · rw [if_pos how1] at h
        cases hm : mergeConfig (jsGetD acc k1) v1 with
        | error e =>
          rw [hm] at h
          simp [Bind.bind, Except.bind] at h
        | ok m =>
          rw [hm] at h
          simp only [Bind.bind, Except.bind] at h
          have := ih (jsSet acc k1 m) r k v (isObjKind_jsSet acc k1 m hacc) hnd2
            hmem2 (by rw [hasOwn_set_ne acc k1 k m hacc hne]; exact how) h
          rwa [jsGetD_set_ne acc k1 k m hacc hne] at this
      · rw [if_neg how1] at h
        have := ih (jsSet acc k1 v1) r k v (isObjKind_jsSet acc k1 v1 hacc) hnd2
          hmem2 (by rw [hasOwn_set_ne acc k1 k v1 hacc hne]; exact how) h
        rwa [jsGetD_set_ne acc k1 k v1 hacc hne] at this

theorem mergeEntries_set_mem (l : List (String × JVal)) :
    ∀ (acc r : JVal) (k : String) (v : JVal), isObjKind acc = true →
      (l.map Prod.fst).Nodup → (k, v) ∈ l →
      (v = .null ∨ v.typeofObject = false) →
      mergeEntries acc l = .ok r → jsGetD r k = v := by
  induction l with
  | nil =>
    intro acc r k v _ _ hmem _ _
    simp at hmem
  | cons p rest ih =>
    intro acc r k v hacc hnd hmem hv h
    obtain ⟨k1, v1⟩ := p
    rw [List.map_cons, List.nodup_cons] at hnd
    obtain ⟨hk1notin, hnd2⟩ := hnd
    have hnn : ¬ acc = JVal.null := by
      intro hc
      rw [hc] at hacc
      simp [isObjKind] at hacc
    rw [mergeEntries, if_neg (by simp only [beqJVal_iff]; exact hnn)] at h
    rcases List.mem_cons.mp hmem with heq | hmem2
    · obtain ⟨hk, hv'⟩ : k1 = k ∧ v1 = v := by
        have h1 := congrArg Prod.fst heq
        have h2 := congrArg Prod.snd heq
        exact ⟨h1.symm, h2.symm⟩
      subst hk
      subst hv'
      by_cases how : hasOwn acc k1
      · rw [if_pos how] at h
        rw [mergeConfig_incoming_wins (jsGetD acc k1) v1
          (by rcases hv with hv | hv
              · exact Or.inr (Or.inl hv)
              · exact Or.inr (Or.inr hv))] at h
        simp only [Bind.bind, Except.bind] at h
        have hfin := mergeEntries_get_notin rest (jsSet acc k1 v1) r k1
          (isObjKind_jsSet acc k1 v1 hacc) hk1notin h
        rw [hfin, jsGetD_set_self acc k1 v1 hacc]
      · rw [if_neg how] at h
        have hfin := mergeEntries_get_notin rest (jsSet acc k1 v1) r k1
          (isObjKind_jsSet acc k1 v1 hacc) hk1notin h
        rw [hfin, jsGetD_set_self acc k1 v1 hacc]
    · have hne : k ≠ k1 := by
        intro hc
        apply hk1notin
        rw [← hc]
        simpa using List.mem_map_of_mem Prod.fst hmem2
      by_cases how1 : hasOwn acc k1
      · rw [if_pos how1] at h
        cases hm : mergeConfig (jsGetD acc k1) v1 with
        | error e =>
          rw [hm] at h
          simp [Bind.bind, Except.bind] at h
        | ok m =>
          rw [hm] at h
          simp only [Bind.bind, Except.bind] at h
          exact ih (jsSet acc k1 m) r k v (isObjKind_jsSet acc k1 m hacc) hnd2
            hmem2 hv h
      · rw [if_neg how1] at h
        exact ih (jsSet acc k1 v1) r k v (isObjKind_jsSet acc k1 v1 hacc) hnd2
          hmem2 hv h

theorem mergeConfig_obj_obj (os is_ : List (String × JVal)) :
    mergeConfig (.obj os) (.obj is_) = mergeEntries (.obj os) is_ := by
  rw [mergeConfig]
  simp [JVal.typeofObject, beqJVal]

end MergeLemmas

section ErrorKindLemmas


mutual

theorem mergeConfig_error_kind : ∀ (orig incoming : JVal) (e : PipeErr),
    mergeConfig orig incoming = .error e → e.isTypeError = true
  | orig, .obj fields, e => fun h => by
    by_cases h1 : orig.typeofObject
    · rw [mergeConfig, if_neg (by simp [h1]),
        if_neg (by simp [beqJVal, JVal.typeofObject])] at h
      exact mergeEntries_error_kind fields orig e h
    · rw [mergeConfig, if_pos h1] at h
      cases h
  | orig, .arr xs, e => fun h => by
    by_cases h1 : orig.typeofObject
    · rw [mergeConfig, if_neg (by simp [h1]),
        if_neg (by simp [beqJVal, JVal.typeofObject])] at h
      exact mergeArrEntries_error_kind xs orig 0 e h
    · rw [mergeConfig, if_pos h1] at h
      cases h
  | _, .null, e => fun h => by
    rw [mergeConfig_incoming_wins _ _ (Or.inr (Or.inl rfl))] at h
    cases h
  | _, .undef, e => fun h => by
    rw [mergeConfig_incoming_wins _ _
      (Or.inr (Or.inr (by simp [JVal.typeofObject])))] at h
    cases h
  | _, .bool b, e => fun h => by
    rw [mergeConfig_incoming_wins _ _
      (Or.inr (Or.inr (by simp [JVal.typeofObject])))] at h
    cases h
  | _, .num n, e => fun h => by
    rw [mergeConfig_incoming_wins _ _
      (Or.inr (Or.inr (by simp [JVal.typeofObject])))] at h
    cases h
  | _, .str s, e => fun h => by
    rw [mergeConfig_incoming_wins _ _
      (Or.inr (Or.inr (by simp [JVal.typeofObject])))] at h
    cases h

theorem mergeEntries_error_kind : ∀ (l : List (String × JVal)) (acc : JVal)
    (e : PipeErr), mergeEntries acc l = .error e → e.isTypeError = true
  | [], acc, e => fun h => by simp [mergeEntries] at h
  | (k, v) :: rest, acc, e => fun h => by
    rw [mergeEntries] at h
    by_cases hnn : acc = JVal.null
    · rw [if_pos ((beqJVal_iff acc JVal.null).mpr hnn)] at h
      obtain rfl := (Except.error.inj h)
      rfl
    · rw [if_neg (fun hc => hnn ((beqJVal_iff acc JVal.null).mp hc))] at h
      by_cases how : hasOwn acc k
      · rw [if_pos how] at h
        cases hm : mergeConfig (jsGetD acc k) v with
        | error e2 =>
          rw [hm] at h
          simp only [Bind.bind, Except.bind] at h
          obtain rfl := (Except.error.inj h)
          exact mergeConfig_error_kind (jsGetD acc k) v e2 hm
        | ok m =>
          rw [hm] at h
          simp only [Bind.bind, Except.bind] at h
          exact mergeEntries_error_kind rest (jsSet acc k m) e h
      · rw [if_neg how] at h
        exact mergeEntries_error_kind rest (jsSet acc k v) e h

theorem mergeArrEntries_error_kind : ∀ (l : List JVal) (acc : JVal) (i : Nat)
    (e : PipeErr), mergeArrEntries acc i l = .error e → e.isTypeError = true
  | [], acc, i, e => fun h => by simp [mergeArrEntries] at h
  | v :: rest, acc, i, e => fun h => by
    rw [mergeArrEntries] at h
    by_cases hnn : acc = JVal.null
    · rw [if_pos ((beqJVal_iff acc JVal.null).mpr hnn)] at h
      obtain rfl := (Except.error.inj h)
      rfl
    · rw [if_neg (fun hc => hnn ((beqJVal_iff acc JVal.null).mp hc))] at h
      by_cases how : hasOwn acc (toString i)
      · rw [if_pos how] at h
        cases hm : mergeConfig (jsGetD acc (toString i)) v with
        | error e2 =>
          rw [hm] at h
          simp only [Bind.bind, Except.bind] at h
          obtain rfl := (Except.error.inj h)
          exact mergeConfig_error_kind (jsGetD acc (toString i)) v e2 hm
        | ok m =>
          rw [hm] at h
          simp only [Bind.bind, Except.bind] at h
          exact mergeArrEntries_error_kind rest (jsSet acc (toString i) m) (i + 1) e h
      · rw [if_neg how] at h
        exact mergeArrEntries_error_kind rest (jsSet acc (toString i) v) (i + 1) e h

end

end ErrorKindLemmas

section DelPropLemmas

theorem lookup_filter_ne_none (l : List (String × JVal)) (k : String) :
    lookupField (l.filter (fun kv => kv.1 ≠ k)) k = none := by
  induction l with
  | nil => simp [lookupField]
  | cons p rest ih =>
    obtain ⟨k1, v1⟩ := p
    by_cases hp : k1 = k
    · simpa [List.filter, hp] using ih
    · simpa [List.filter, hp, lookupField] using ih

theorem hasOwn_delProp (v : JVal) (k : String) (hk : natIdx k = none) :
    hasOwn (delProp v k) k = false := by
  cases v with
  | obj fs =>
    have := lookup_filter_ne_none fs k
    simp [delProp, hasOwn]
    simpa using this
  | arr xs => simp [delProp, hasOwn, hk]
  | undef => simp [delProp, hasOwn]
  | null => simp [delProp, hasOwn]
  | bool b => simp [delProp, hasOwn]
  | num n => simp [delProp, hasOwn]
  | str s => simp [delProp, hasOwn]

theorem lookup_filter_ne_other (l : List (String × JVal)) (k k' : String)
    (h : k' ≠ k) :
    lookupField (l.filter (fun kv => kv.1 ≠ k)) k' = lookupField l k' := by
  induction l with
  | nil => simp [lookupField]
  | cons p rest ih =>
    obtain ⟨k1, v1⟩ := p
    by_cases hp : k1 = k
    · subst hp
      simpa [List.filter, lookupField, Ne.symm h] using ih
    · by_cases hk1 : k1 = k'
      · simp [List.filter, hp, lookupField, hk1, h]
      · simpa [List.filter, hp, lookupField, hk1] using ih

theorem jsGetD_delProp_ne (v : JVal) (k k' : String) (h : k' ≠ k) :
    jsGetD (delProp v k) k' = jsGetD v k' := by
  cases v with
  | obj fs =>
    have h1 := lookup_filter_ne_other fs k k' h
    have h2 : lookupField (List.filter (fun kv => !decide (kv.1 = k)) fs) k'
        = lookupField fs k' := by simpa using h1
    simp [delProp, jsGetD, h2]
  | arr xs => simp [delProp]
  | undef => simp [delProp]
  | null => simp [delProp]
  | bool b => simp [delProp]
  | num n => simp [delProp]
  | str s => simp [delProp]

theorem jsGetD_falsy (v : JVal) (p : String) (hv : v.truthy = false) :
    jsGetD v p = .undef := by
  cases v <;> simp_all [JVal.truthy, jsGetD]

end DelPropLemmas

section ProfileLemmas

theorem profileLookup_truthy_iff (cfg : JVal) (p : String) :
    (profileLookup cfg p).truthy = (jsGetD (jsGetD cfg "Profiles") p).truthy := by
  rw [profileLookup]
  by_cases ht : (jsGetD cfg "Profiles").truthy
  · rw [if_pos ht]
  · rw [if_neg ht]
    rw [jsGetD_falsy (jsGetD cfg "Profiles") p (by simpa using ht)]
    rfl

end ProfileLemmas

/-- C1 counterexample: `mergeConfig({a:1,b:2}, {b:null})` does not delete
`b`; it yields `{a:1, b:null}`, which differs from `{a:1}` and carries a
literal null leaf for the key `b` that existed in the base. -/
theorem c1_merge_null_counterexample :
    mergeConfig (.obj [("a", .num 1), ("b", .num 2)]) (.obj [("b", .null)])
        = .ok (.obj [("a", .num 1), ("b", .null)]) ∧
      JVal.obj [("a", .num 1), ("b", .null)] ≠ .obj [("a", .num 1)] ∧
      jsGetD (.obj [("a", .num 1), ("b", .null)]) "b" = .null := by
  decide

/-- C1 (amended): a `null` value in `incoming` is an override, not a
deletion marker: whenever both arguments are mappings (with the runtime
guarantee of duplicate-free keys) and the merge succeeds, every key of
`incoming` carrying `null` is present in the result with the literal value
`null` — both when the key existed in the base and when it did not. -/
theorem c1_merge_null_overrides (os is_ : List (String × JVal)) (k : String)
    (r : JVal) (hnd : (is_.map Prod.fst).Nodup) (hmem : (k, JVal.null) ∈ is_)
    (h : mergeConfig (.obj os) (.obj is_) = .ok r) :
    jsGetD r k = JVal.null := by
  rw [mergeConfig_obj_obj] at h
  exact mergeEntries_set_mem is_ (.obj os) r k .null (by simp [isObjKind]) hnd
    hmem (Or.inl rfl) h

/-- C1 witness: the amended statement applied to the concrete merge of
`{a:1,b:2}` with `{b:null}`. -/
theorem c1_merge_null_overrides_witness :
    jsGetD (JVal.obj [("a", .num 1), ("b", .null)]) "b" = JVal.null :=
  c1_merge_null_overrides [("a", .num 1), ("b", .num 2)] [("b", .null)] "b"
    (.obj [("a", .num 1), ("b", .null)]) (by decide) (by decide) (by decide)

/-- C2 counterexample: lists are not replaced wholesale —
`mergeConfig([1,2], [9])` merges element-wise by index and returns
`[9,2]`, not the incoming `[9]`. -/
theorem c2_list_counterexample :
    mergeConfig (.arr [.num 1, .num 2]) (.arr [.num 9])
        = .ok (.arr [.num 9, .num 2]) ∧
      JVal.arr [.num 9, .num 2] ≠ .arr [.num 9] := by
  decide

/-- C2 (amended): `incoming` wins outright exactly in the cases where
JavaScript's `typeof` test fires: when `orig` is a scalar
(`typeof !== 'object'`, which is false for lists), or when `incoming` is
`null` or a scalar.  Lists have `typeof === 'object'` and are merged
key-wise by index like mappings. -/
theorem c2_scalar_replaces (orig incoming : JVal)
    (h : orig.typeofObject = false ∨ incoming = .null ∨
      incoming.typeofObject = false) :
    mergeConfig orig incoming = .ok incoming :=
  mergeConfig_incoming_wins orig incoming h

/-- C2 witness: `merge("s", {a:1}) = {a:1}` via the amended statement. -/
theorem c2_scalar_replaces_witness :
    mergeConfig (.str "s") (.obj [("a", .num 1)]) = .ok (.obj [("a", .num 1)]) :=
  c2_scalar_replaces (.str "s") (.obj [("a", .num 1)]) (Or.inl (by decide))

/-- C3: the cleanup step fails on `Resources`.  On a document whose
`Resources` holds a falsy (`null`) entry `Web`, `cleanupNullDefinitions`
returns the document unchanged — the falsy entry survives, because the
source deletes the literal property name `resName`
(`delete cfg.Resources.resName`) instead of `cfg.Resources[resName]`. -/
theorem c3_resources_cleanup_bug :
    cleanupNullDefinitions
        (.obj [("Boxen", .obj []), ("Resources", .obj [("Web", .null)])])
        = .ok (.obj [("Boxen", .obj []), ("Resources", .obj [("Web", .null)])]) ∧
      jsGetD (jsGetD (.obj [("Boxen", .obj []),
        ("Resources", .obj [("Web", .null)])]) "Resources") "Web" = .null ∧
      JVal.truthy .null = false := by
  decide

/-- C6: whenever the profile-resolution step succeeds, the resulting
document has no `Profiles` key — whether a profile overlay was merged or
the sentinel `Default` was treated as an empty overlay. -/
theorem c6_profiles_absent (cfg d : JVal) (p : String)
    (h : mergeProfileConfig cfg p = .ok d) : hasOwn d "Profiles" = false := by
  rw [mergeProfileConfig] at h
  by_cases ht : ¬ (profileLookup cfg p).truthy = true
  · rw [if_pos ht] at h
    by_cases hd : p ≠ "Default"
    · rw [if_pos hd] at h
      cases h
    · rw [if_neg hd] at h
      have hde : d = delProp cfg "Profiles" := (Except.ok.inj h).symm
      rw [hde]
      exact hasOwn_delProp cfg "Profiles" (by decide)
  · rw [if_neg ht] at h
    cases hm : mergeConfig cfg (profileLookup cfg p) with
    | error e =>
      rw [hm] at h
      simp [Bind.bind, Except.bind] at h
    | ok m =>
      rw [hm] at h
      simp only [Bind.bind, Except.bind] at h
      have hde : d = delProp m "Profiles" := (Except.ok.inj h).symm
      rw [hde]
      exact hasOwn_delProp m "Profiles" (by decide)

/-- C6 witness: resolving the sentinel profile on a document with a
`Profiles` catalog removes the catalog. -/
theorem c6_profiles_absent_witness :
    hasOwn (JVal.obj [("a", .num 1)]) "Profiles" = false :=
  c6_profiles_absent (.obj [("a", .num 1), ("Profiles", .obj [("P", .obj [])])])
    (.obj [("a", .num 1)]) "Default" (by decide)

/-- C7 counterexample: the unknown-profile failure is governed by the
truthiness of `doc.Profiles[name]`, not by key absence — a profile entry
that is present with a `null` value still fails, refuting the claimed
"exactly when the name is absent" condition. -/
theorem c7_unknown_profile_counterexample :
    isUnknownProfileErr
        (mergeProfileConfig (.obj [("Profiles", .obj [("P", .null)])]) "P")
        = true ∧
      hasOwn (jsGetD (.obj [("Profiles", .obj [("P", .null)])]) "Profiles") "P"
        = true ∧
      "P" ≠ "Default" := by
  decide

/-- C7 (amended): profile resolution fails with the unknown-profile error
exactly when the looked-up value `doc.Profiles[name]` is falsy (absent,
`null`, or otherwise falsy) and the name is not the sentinel `Default`;
when the lookup is falsy and the name is `Default`, resolution succeeds,
returning the document with `Profiles` deleted and every other key
untouched. -/
theorem c7_unknown_profile_condition (cfg : JVal) (p : String) :
    (isUnknownProfileErr (mergeProfileConfig cfg p) = true ↔
      ((jsGetD (jsGetD cfg "Profiles") p).truthy = false ∧ p ≠ "Default")) ∧
    ((jsGetD (jsGetD cfg "Profiles") p).truthy = false → p = "Default" →
      mergeProfileConfig cfg p = .ok (delProp cfg "Profiles") ∧
      ∀ k, k ≠ "Profiles" → jsGetD (delProp cfg "Profiles") k = jsGetD cfg k) := by
  have hiff := profileLookup_truthy_iff cfg p
  constructor
  · rw [mergeProfileConfig]
    by_cases ht : ¬ (profileLookup cfg p).truthy = true
    · rw [if_pos ht]
      by_cases hd : p ≠ "Default"
      · rw [if_pos hd]
        simp only [isUnknownProfileErr]
        constructor
        · intro _
          exact ⟨by rw [← hiff]; simpa using ht, hd⟩
        · intro _
          trivial
      · rw [if_neg hd]
        simp only [isUnknownProfileErr]
        constructor
        · intro hc
          cases hc
        · intro ⟨_, hc⟩
          exact absurd hc hd
    · by_cases hd2 : (jsGetD (jsGetD cfg "Profiles") p).truthy = false
      · rw [← hiff] at hd2
        exact absurd hd2 (by simpa using ht)
      · rw [if_neg ht]
        cases hm : mergeConfig cfg (profileLookup cfg p) with
        | error e =>
          simp only [Bind.bind, Except.bind, isUnknownProfileErr]
          constructor
          · intro hc
            have hk := mergeConfig_error_kind cfg (profileLookup cfg p) e hm
            cases e with
            | typeError msg => cases hc
            | unknownProfile name => cases hk
          · intro ⟨hc, _⟩
            exact absurd hc hd2
        | ok m =>
          simp only [Bind.bind, Except.bind, isUnknownProfileErr]
          constructor
          · intro hc
            cases hc
          · intro ⟨hc, _⟩
            exact absurd hc hd2
  · intro hfalsy hdef
    have ht : ¬ (profileLookup cfg p).truthy = true := by
      rw [hiff, hfalsy]
      simp
    constructor
    · rw [mergeProfileConfig, if_pos ht, if_neg (by simp [hdef])]
    · intro k hk
      exact jsGetD_delProp_ne cfg "Profiles" k hk

/-- C7 witness: the amended statement applied to the sentinel `Default`
profile on a document with no `Profiles` key: resolution succeeds and
leaves the other keys unchanged. -/
theorem c7_unknown_profile_condition_witness :
    mergeProfileConfig (.obj [("a", .num 1)]) "Default"
        = .ok (delProp (.obj [("a", .num 1)]) "Profiles") ∧
      ∀ k, k ≠ "Profiles" →
        jsGetD (delProp (.obj [("a", .num 1)]) "Profiles") k
          = jsGetD (.obj [("a", .num 1)]) k :=
  (c7_unknown_profile_condition (.obj [("a", .num 1)]) "Default").2
    (by decide) rfl

section ResolveHelpers

theorem natIdx_zero : natIdx "0" = some 0 := by decide

theorem natIdx_one : natIdx "1" = some 1 := by decide

theorem natIdx_two : natIdx "2" = some 2 := by decide

theorem findInMapValue_str_keys (cfg : JVal) (a b c : String)
    (ms : List (String × JVal)) (hm : jsGetD cfg "Mappings" = .obj ms) :
    findInMapValue cfg (.arr [.str a, .str b, .str c])
      = (jsMember ((lookupField ms a).getD .undef) b).bind
          (fun m1 => jsMember m1 c) := by
  have e0 : jsMember (JVal.arr [.str a, .str b, .str c]) "0"
      = some (.str a) := by
    simp [jsMember, jsGetD, natIdx_zero]
  have e1 : jsMember (JVal.arr [.str a, .str b, .str c]) "1"
      = some (.str b) := by
    simp [jsMember, jsGetD, natIdx_one]
  have e2 : jsMember (JVal.arr [.str a, .str b, .str c]) "2"
      = some (.str c) := by
    simp [jsMember, jsGetD, natIdx_two]
  have eM : jsMember (jsGetD cfg "Mappings") a
      = some ((lookupField ms a).getD .undef) := by
    rw [hm]
    rfl
  simp [findInMapValue, e0, e1, e2, toPropertyKey, eM]

end ResolveHelpers

/-- C4 counterexample: the `Fn::FindInMap` pass does not leave every node
with a failed lookup unchanged.  When the map name and the first key
resolve but the second key is missing, no `TypeError` is thrown, and
`this.update(mapped)` runs with `mapped === undefined`: the node is
replaced by `undefined` instead of being left in place. -/
theorem c4_findinmap_counterexample :
    resolveMaps
        (.obj [("Mappings", .obj [("M", .obj [("A", .obj [])])]),
          ("X", .obj [("Fn::FindInMap", .arr [.str "M", .str "A", .str "Z"])])])
        (.obj [("Mappings", .obj [("M", .obj [("A", .obj [])])]),
          ("X", .obj [("Fn::FindInMap", .arr [.str "M", .str "A", .str "Z"])])])
        = .obj [("Mappings", .obj [("M", .obj [("A", .obj [])])]),
          ("X", .undef)] ∧
      JVal.undef ≠ .obj [("Fn::FindInMap", .arr [.str "M", .str "A", .str "Z"])] := by
  decide

/-- C4 (amended): neither resolution pass raises an error.  A single-key
`Ref` node whose name resolves to no value is left unchanged at its tree
position; a single-key `Fn::FindInMap` node is left unchanged whenever the
guarded lookup chain throws (in particular when the map name or the first
lookup key is missing); but when the map name and first key resolve to a
mapping and only the second lookup key is missing, the node is replaced by
an `undefined` value rather than causing a failure. -/
theorem c4_unresolved_left_in_place (o : Opts) (cfg cfg2 : JVal)
    (name a b c : String) (ms ts ss : List (String × JVal)) :
    (resolveParam name o cfg = .undef →
      resolveRefs o cfg (.obj [("Ref", .str name)])
        = .obj [("Ref", .str name)]) ∧
    (findInMapValue cfg2 (.arr [.str a, .str b, .str c]) = none →
      resolveMaps cfg2 (.obj [("Fn::FindInMap", .arr [.str a, .str b, .str c])])
        = .obj [("Fn::FindInMap", .arr [.str a, .str b, .str c])]) ∧
    (jsGetD cfg2 "Mappings" = .obj ms → lookupField ms a = none →
      findInMapValue cfg2 (.arr [.str a, .str b, .str c]) = none) ∧
    (jsGetD cfg2 "Mappings" = .obj ms → lookupField ms a = some (.obj ts) →
      lookupField ts b = none →
      findInMapValue cfg2 (.arr [.str a, .str b, .str c]) = none) ∧
    (jsGetD cfg2 "Mappings" = .obj ms → lookupField ms a = some (.obj ts) →
      lookupField ts b = some (.obj ss) → lookupField ss c = none →
      resolveMaps cfg2 (.obj [("Fn::FindInMap", .arr [.str a, .str b, .str c])])
        = .undef) := by
  refine ⟨?_, ?_, ?_, ?_, ?_⟩
  · intro h
    simp [resolveRefs, resolveParamJ, h, beqJVal]
  · intro h
    simp [resolveMaps, h, resolveMapsElems]
  · intro hm h0
    rw [findInMapValue_str_keys cfg2 a b c ms hm, h0]
    simp [jsMember]
  · intro hm h0 h1
    rw [findInMapValue_str_keys cfg2 a b c ms hm, h0]
    simp [jsMember, jsGetD, h1]
  · intro hm h0 h1 h2
    have hv : findInMapValue cfg2 (.arr [.str a, .str b, .str c])
        = some .undef := by
      rw [findInMapValue_str_keys cfg2 a b c ms hm, h0]
      simp [jsMember, jsGetD, h1, h2]
    simp [resolveMaps, hv]

/-- C4 witness: the amended statement at a concrete document — an
unresolvable `Ref` and a `FindInMap` with a missing map name are left
unchanged, and a `FindInMap` missing only its second key becomes
`undefined`. -/
theorem c4_unresolved_left_in_place_witness :
    resolveRefs ⟨.obj [], .str "us-east-1", .str ""⟩ (.obj [])
        (.obj [("Ref", .str "Undeclared::Thing")])
        = .obj [("Ref", .str "Undeclared::Thing")] ∧
      resolveMaps (.obj [("Mappings", .obj [("M", .obj [("A", .obj [])])])])
        (.obj [("Fn::FindInMap", .arr [.str "M", .str "A", .str "Z"])])
        = .undef := by
  have h := c4_unresolved_left_in_place ⟨.obj [], .str "us-east-1", .str ""⟩
    (.obj []) (.obj [("Mappings", .obj [("M", .obj [("A", .obj [])])])])
    "Undeclared::Thing" "M" "A" "Z" [("M", .obj [("A", .obj [])])]
    [("A", .obj [])] []
  exact ⟨h.1 (by decide), h.2.2.2.2 (by decide) (by decide) (by decide) (by decide)⟩

/-- C10: with no stack-name option under any of its three spellings,
`getOptions` normalizes `stack_name` to the empty string; `opts.stack_name
|| undefined` then makes `resolveParam` return `undefined` for the
pseudo-parameter `AWS::StackName` (provided no explicit definition or
template parameter shadows it), so a `{Ref: "AWS::StackName"}` node is
left unresolved rather than replaced by the empty string. -/
theorem c10_stackname_unresolved (options cfg defineJ region : JVal)
    (h1 : hasOwn options "stack_name" = false)
    (h2 : hasOwn options "--stack-name" = false)
    (h3 : hasOwn options "<stack-name>" = false)
    (h4 : defineJ.truthy = false ∨ hasOwn defineJ "AWS::StackName" = false)
    (h5 : (jsGetD cfg "Parameters").truthy = false ∨
      hasOwn (jsGetD cfg "Parameters") "AWS::StackName" = false) :
    optsStackName options = .str "" ∧
    resolveParam "AWS::StackName" ⟨defineJ, region, .str ""⟩ cfg = .undef ∧
    resolveRefs ⟨defineJ, region, .str ""⟩ cfg
        (.obj [("Ref", .str "AWS::StackName")])
      = .obj [("Ref", .str "AWS::StackName")] := by
  have hda : dashify "stack_name" = "stack-name" := by decide
  have hopt : getOption "stack_name" options = .undef := by
    rw [getOption, hda]
    simp [h1, h2, h3]
  have hsn : optsStackName options = .str "" := by
    rw [optsStackName, hopt]
    simp [jsOr, JVal.truthy]
  have hrp : resolveParam "AWS::StackName" ⟨defineJ, region, .str ""⟩ cfg
      = .undef := by
    rw [resolveParam]
    rw [if_neg (by
      rcases h4 with h4 | h4 <;> simp [h4])]
    rw [if_neg (by
      rcases h5 with h5 | h5 <;> simp [h5])]
    rw [if_neg (by decide), if_pos rfl]
    simp [jsOr, JVal.truthy]
  refine ⟨hsn, hrp, ?_⟩
  simp [resolveRefs, resolveParamJ, hrp, beqJVal]

/-- C10 witness: the statement at an empty options hash, empty definition
mapping and empty document. -/
theorem c10_stackname_unresolved_witness :
    optsStackName (.obj []) = .str "" ∧
    resolveParam "AWS::StackName" ⟨.obj [], .str "us-east-1", .str ""⟩ (.obj [])
      = .undef ∧
    resolveRefs ⟨.obj [], .str "us-east-1", .str ""⟩ (.obj [])
        (.obj [("Ref", .str "AWS::StackName")])
      = .obj [("Ref", .str "AWS::StackName")] :=
  c10_stackname_unresolved (.obj []) (.obj []) (.obj []) (.str "us-east-1")
    (by decide) (by decide) (by decide) (Or.inr (by decide)) (Or.inr (by decide))

section DefineLemmas


theorem lookup_foldl_setPairs (ps : List (String × JVal)) :
    ∀ (d : List (String × JVal)) (k : String),
      lookupField (ps.foldl (fun d p => setField d p.1 p.2) d) k
        = ((ps.reverse.find? (fun p => p.1 == k)).map Prod.snd).orElse
            (fun _ => lookupField d k) := by
  induction ps with
  | nil =>
    intro d k
    simp
  | cons p rest ih =>
    intro d k
    rw [List.foldl_cons, ih]
    rw [List.reverse_cons, List.find?_append]
    cases hfound : rest.reverse.find? (fun p => p.1 == k) with
    | some r => simp [Option.orElse]
    | none =>
      by_cases hp : p.1 = k
      · subst hp
        simp [lookup_setField_self, Option.orElse]
      · have hbeq : (p.1 == k) = false := by simpa using hp
        simp [hbeq, lookup_setField_ne d p.1 k p.2 (Ne.symm hp), Option.orElse]

theorem applyOneDefineStr_eq_foldl (d : List (String × JVal)) (s : String) :
    applyOneDefineStr d s
      = ((jsSplit ',' s).map parseDefinePair).foldl
          (fun d p => setField d p.1 p.2) d := by
  rw [applyOneDefineStr, List.foldl_map]

theorem applyCliDefines_eq_foldl (defs : List String) :
    ∀ d : List (String × JVal),
      applyCliDefines d defs
        = (cliPairs defs).foldl (fun d p => setField d p.1 p.2) d := by
  induction defs with
  | nil =>
    intro d
    rfl
  | cons s rest ih =>
    intro d
    rw [applyCliDefines, List.foldl_cons]
    have h1 : applyCliDefines (applyOneDefineStr d s) rest
        = (cliPairs rest).foldl (fun d p => setField d p.1 p.2)
            (applyOneDefineStr d s) := ih (applyOneDefineStr d s)
    rw [show rest.foldl applyOneDefineStr (applyOneDefineStr d s)
        = applyCliDefines (applyOneDefineStr d s) rest from rfl, h1,
      applyOneDefineStr_eq_foldl, ← List.foldl_append]
    have h2 : cliPairs (s :: rest)
        = (jsSplit ',' s).map parseDefinePair ++ cliPairs rest := by
      simp [cliPairs]
    rw [h2]

theorem lookup_foldl_setConst (ks : List String) (g : String → JVal) :
    ∀ (d : List (String × JVal)) (k : String),
      lookupField (ks.foldl (fun d k' => setField d k' (g k')) d) k
        = if ks.contains k then some (g k) else lookupField d k := by
  induction ks with
  | nil =>
    intro d k
    simp
  | cons k1 rest ih =>
    intro d k
    rw [List.foldl_cons, ih]
    by_cases hin : k ∈ rest
    · simp [hin]
    · by_cases hk1 : k1 = k
      · subst hk1
        simp [hin, lookup_setField_self]
      · have hne : k ≠ k1 := fun hc => hk1 hc.symm
        simp [hin, hne, lookup_setField_ne d k1 k (g k1) hne]

theorem lookup_applyParamData (data : JVal) (d : List (String × JVal))
    (k : String) :
    lookupField (applyParamData d data) k
      = if (keysForIn data).contains k then some (jsGetD data k)
        else lookupField d k :=
  lookup_foldl_setConst (keysForIn data) (jsGetD data) d k

theorem lookup_applyParamFiles (datas : List JVal) :
    ∀ (d : List (String × JVal)) (k : String),
      lookupField (applyParamFiles d datas) k
        = (lastFileDef datas k).orElse (fun _ => lookupField d k) := by
  induction datas with
  | nil =>
    intro d k
    simp [applyParamFiles, lastFileDef]
  | cons data rest ih =>
    intro d k
    rw [show applyParamFiles d (data :: rest)
        = applyParamFiles (applyParamData d data) rest from rfl, ih]
    have hsplit : lastFileDef (data :: rest) k
        = (lastFileDef rest k).orElse
            (fun _ => if (keysForIn data).contains k then some (jsGetD data k)
              else none) := by
      rw [lastFileDef, lastFileDef, List.reverse_cons, List.find?_append]
      cases hfound : rest.reverse.find? (fun d => (keysForIn d).contains k) with
      | some d0 => simp [Option.orElse]
      | none =>
        by_cases hin : k ∈ keysForIn data
        · simp [hin, Option.orElse]
        · simp [hin, Option.orElse]
    rw [hsplit, lookup_applyParamData]
    cases hrest : lastFileDef rest k with
    | some v => simp [Option.orElse]
    | none =>
      by_cases hin : k ∈ keysForIn data
      · simp [hin, Option.orElse]
      · simp [hin, Option.orElse]

end DefineLemmas

/-- C9: the parameter-override mapping accumulates parameter files
strictly in the order given — a later file's definition of a key
overwrites an earlier file's — and the explicit command-line `key=value`
definitions are applied last, taking final precedence over everything
loaded from files.  Concretely, files `{"X":"1"}` then `{"X":"2"}`
followed by the command-line definition `X=3` make `Ref: X` resolve to
`"3"`. -/
theorem c9_define_precedence :
    (∀ (datas : List JVal) (clis : List String) (k : String),
      lookupField (buildDefines datas clis) k
        = (lastCliDef clis k).orElse (fun _ => lastFileDef datas k)) ∧
    resolveParam "X"
        ⟨.obj (buildDefines [.obj [("X", .str "1")], .obj [("X", .str "2")]]
          ["X=3"]), .str "us-east-1", .str ""⟩ (.obj [])
      = .str "3" := by
  constructor
  · intro datas clis k
    rw [buildDefines, applyCliDefines_eq_foldl clis, lookup_foldl_setPairs,
      lookup_applyParamFiles]
    rw [lastCliDef]
    cases hc : (cliPairs clis).reverse.find? (fun p => p.1 == k) with
    | some p => simp [Option.orElse]
    | none =>
      simp only [Option.map_none', Option.none_orElse]
      cases hf : lastFileDef datas k with
      | some v => simp [Option.orElse]
      | none => simp [Option.orElse, lookupField]
  · decide

/-- C8: when `createDefaultBoxen` sweeps unrecognized top-level keys into
the default `AWSBox` box and the document already declares
`Boxen.AWSBox` with a `Properties` mapping, the explicit declaration is
merged over the top of the swept-up keys, so on every conflicting key
whose explicitly declared value is a scalar (or `null`), the resulting
`Boxen.AWSBox.Properties` carries the explicit value, not the swept-up
legacy one. -/
theorem c8_explicit_properties_win (o res bfs afs pfs : List (String × JVal))
    (k : String) (w : JVal)
    (hex : o.filter (fun kv => !(CONFIG_TOP_LEVEL_KEYS.contains kv.1)) ≠ [])
    (hboxen : lookupField (o.filter (fun kv => CONFIG_TOP_LEVEL_KEYS.contains kv.1))
      "Boxen" = some (.obj bfs))
    (hAWS : lookupField bfs "AWSBox" = some (.obj afs))
    (hand : (afs.map Prod.fst).Nodup)
    (hprops : lookupField afs "Properties" = some (.obj pfs))
    (hpnd : (pfs.map Prod.fst).Nodup)
    (hconf : (k, w) ∈ pfs)
    (_hkswept : k ∈ (o.filter
      (fun kv => !(CONFIG_TOP_LEVEL_KEYS.contains kv.1))).map Prod.fst)
    (hscalar : w = .null ∨ w.typeofObject = false)
    (hok : createDefaultBoxen o = .ok res) :
    jsGetD (jsGetD (jsGetD (jsGetD (.obj res) "Boxen") "AWSBox") "Properties") k
      = w := by
  simp only [createDefaultBoxen] at hok
  rw [if_neg (by simpa [List.isEmpty_iff] using hex)] at hok
  rw [hboxen] at hok
  simp only [Option.getD_some] at hok
  rw [if_neg (by simp [beqJVal])] at hok
  have horig : jsGetD (JVal.obj bfs) "AWSBox" = .obj afs := by
    simp [jsGetD, hAWS]
  rw [horig] at hok
  rw [if_neg (by simp [beqJVal])] at hok
  set extras := o.filter (fun kv => !(CONFIG_TOP_LEVEL_KEYS.contains kv.1))
    with hextras
  set newBox : JVal :=
    .obj [("Type", .str "AWSBox"), ("Properties", .obj extras)] with hnewBox
  cases hm : mergeConfig newBox (.obj afs) with
  | error e =>
    rw [hm] at hok
    simp [Bind.bind, Except.bind] at hok
  | ok m =>
    rw [hm] at hok
    simp only [Bind.bind, Except.bind] at hok
    have hres : res = setField
        (o.filter (fun kv => CONFIG_TOP_LEVEL_KEYS.contains kv.1)) "Boxen"
        (jsSet (.obj bfs) "AWSBox" m) := (Except.ok.inj hok).symm
    have hgetBoxen : jsGetD (.obj res) "Boxen"
        = jsSet (.obj bfs) "AWSBox" m := by
      rw [hres]
      simp [jsGetD, lookup_setField_self]
    have hgetAWS : jsGetD (jsSet (.obj bfs) "AWSBox" m) "AWSBox" = m :=
      jsGetD_set_self (.obj bfs) "AWSBox" m (by simp [isObjKind])
    rw [hgetBoxen, hgetAWS]
    rw [mergeConfig_obj_obj] at hm
    have hasP : hasOwn newBox "Properties" = true := by
      rw [hnewBox]
      simp [hasOwn, lookupField]
    obtain ⟨mP, hmP, hgetP⟩ := mergeEntries_at_key afs newBox m "Properties"
      (.obj pfs) (by rw [hnewBox]; simp [isObjKind]) hand
      (lookup_some_mem afs "Properties" (.obj pfs) hprops) hasP hm
    have hgetNB : jsGetD newBox "Properties" = .obj extras := by
      rw [hnewBox]
      simp [jsGetD, lookupField]
    rw [hgetNB, mergeConfig_obj_obj] at hmP
    have hfinal : jsGetD mP k = w :=
      mergeEntries_set_mem pfs (.obj extras) mP k w (by simp [isObjKind]) hpnd
        hconf hscalar hmP
    rw [hgetP, hfinal]

/-- C8 witness: a legacy top-level key `env: "e"` conflicts with an
explicit `Boxen.AWSBox.Properties.env: "EXPL"`; the explicit value
survives the sweep. -/
theorem c8_explicit_properties_win_witness :
    jsGetD (jsGetD (jsGetD (jsGetD
      (.obj [("Boxen", .obj [("AWSBox", .obj [("Type", .str "AWSBox"),
        ("Properties", .obj [("env", .str "EXPL"), ("extra", .num 7)])])])])
      "Boxen") "AWSBox") "Properties") "env" = .str "EXPL" :=
  c8_explicit_properties_win
    [("env", .str "e"), ("Boxen", .obj [("AWSBox",
      .obj [("Properties", .obj [("env", .str "EXPL"), ("extra", .num 7)])])])]
    [("Boxen", .obj [("AWSBox", .obj [("Type", .str "AWSBox"),
      ("Properties", .obj [("env", .str "EXPL"), ("extra", .num 7)])])])]
    [("AWSBox", .obj [("Properties",
      .obj [("env", .str "EXPL"), ("extra", .num 7)])])]
    [("Properties", .obj [("env", .str "EXPL"), ("extra", .num 7)])]
    [("env", .str "EXPL"), ("extra", .num 7)]
    "env" (.str "EXPL")
    (by decide) (by decide) (by decide) (by decide) (by decide) (by decide)
    (by decide) (by decide) (Or.inr (by decide)) (by decide)

section UpgradeLemmas


theorem wfElems_mem (xs : List JVal) (v : JVal) (hwf : wfElems xs = true)
    (h : v ∈ xs) : wf v = true := by
  induction xs with
  | nil => simp at h
  | cons x rest ih =>
    simp [wfElems] at hwf
    rcases List.mem_cons.mp h with h | h
    · rw [h]
      exact hwf.1
    · exact ih hwf.2 h

theorem jsGetD_truthy_isObj (v : JVal) (k : String) (hk : natIdx k = none)
    (h : (jsGetD v k).truthy = true) : isObjKind v = true := by
  cases v with
  | obj fs => simp [isObjKind]
  | arr xs =>
    rw [jsGetD, hk] at h
    simp [JVal.truthy] at h
  | undef => simp [jsGetD, JVal.truthy] at h
  | null => simp [jsGetD, JVal.truthy] at h
  | bool b => simp [jsGetD, JVal.truthy] at h
  | num n => simp [jsGetD, JVal.truthy] at h
  | str s => simp [jsGetD, JVal.truthy] at h

theorem natIdx_Type : natIdx "Type" = none := by decide

theorem natIdx_AWSBox : natIdx "AWSBox" = none := by decide

theorem natIdx_Properties : natIdx "Properties" = none := by decide

theorem upgradeBox_good (w : JVal) (hwf : wf w = true) :
    boxGood (upgradeBox w) := by
  rw [upgradeBox]
  by_cases ht : w.truthy
  · rw [if_neg (by simpa using ht)]
    by_cases hty : (jsGetD w "Type").truthy
    · rw [if_pos hty]
      refine ⟨fun _ => hty, ?_⟩
      intro afs hafs
      rw [hafs] at hwf
      exact wf_obj_nodup afs hwf
    · rw [if_neg hty]
      by_cases hpr : (jsGetD w "Properties").truthy
      · rw [if_pos hpr]
        have hobj : isObjKind w = true :=
          jsGetD_truthy_isObj w "Properties" natIdx_Properties (by simpa using hpr)
        cases w with
        | obj fs =>
          constructor
          · intro _
            simp [jsSet, jsGetD, lookup_setField_self, JVal.truthy]
          · intro afs hafs
            simp only [jsSet] at hafs
            obtain rfl : afs = setField fs "Type" (.str "AWSBox") :=
              (JVal.obj.inj hafs).symm
            exact setField_keys_nodup fs "Type" (.str "AWSBox")
              (wf_obj_nodup fs hwf)
        | undef => simp [isObjKind] at hobj
        | null => simp [isObjKind] at hobj
        | bool b => simp [isObjKind] at hobj
        | num n => simp [isObjKind] at hobj
        | str s => simp [isObjKind] at hobj
        | arr xs => simp [isObjKind] at hobj
      · rw [if_neg hpr]
        constructor
        · intro _
          simp [jsSet, setField, jsGetD, lookupField, JVal.truthy]
        · intro afs hafs
          simp only [jsSet, setField] at hafs
          obtain rfl : afs = [("Properties", w), ("Type", .str "AWSBox")] := by
            have := (JVal.obj.inj hafs).symm
            simpa using this
          simp
  · rw [if_pos (by simpa using ht)]
    constructor
    · intro hc
      rw [hc] at ht
      cases ht rfl
    · intro afs hafs
      rw [hafs] at hwf
      exact wf_obj_nodup afs hwf

theorem upgradeBox_fixed (v : JVal) (hg : boxGood v) : upgradeBox v = v := by
  rw [upgradeBox]
  by_cases ht : v.truthy
  · rw [if_neg (by simpa using ht), if_pos (hg.1 ht)]
  · rw [if_pos (by simpa using ht)]

theorem boxGood_not_arr (xs : List JVal) (hg : boxGood (.arr xs)) : False := by
  have := hg.1 (by simp [JVal.truthy])
  rw [jsGetD, natIdx_Type] at this
  simp [JVal.truthy] at this

end UpgradeLemmas

section MergeGoodLemmas

theorem mergeEntries_nodup (l : List (String × JVal)) :
    ∀ (fs : List (String × JVal)) (r : JVal), (fs.map Prod.fst).Nodup →
      mergeEntries (.obj fs) l = .ok r →
      ∃ rs, r = .obj rs ∧ (rs.map Prod.fst).Nodup := by
  induction l with
  | nil =>
    intro fs r hnd h
    simp [mergeEntries] at h
    exact ⟨fs, h.symm, hnd⟩
  | cons p rest ih =>
    intro fs r hnd h
    obtain ⟨k1, v1⟩ := p
    rw [mergeEntries, if_neg (by simp [beqJVal])] at h
    by_cases how : hasOwn (.obj fs) k1
    · rw [if_pos how] at h
      cases hm : mergeConfig (jsGetD (.obj fs) k1) v1 with
      | error e =>
        rw [hm] at h
        simp [Bind.bind, Except.bind] at h
      | ok m =>
        rw [hm] at h
        simp only [Bind.bind, Except.bind] at h
        rw [show jsSet (.obj fs) k1 m = .obj (setField fs k1 m) from rfl] at h
        exact ih (setField fs k1 m) r (setField_keys_nodup fs k1 m hnd) h
    · rw [if_neg how] at h
      rw [show jsSet (.obj fs) k1 v1 = .obj (setField fs k1 v1) from rfl] at h
      exact ih (setField fs k1 v1) r (setField_keys_nodup fs k1 v1 hnd) h

theorem merge_newBox_good (extras : List (String × JVal)) (ob m : JVal)
    (hg : boxGood ob)
    (hm : mergeConfig
      (.obj [("Type", .str "AWSBox"), ("Properties", .obj extras)]) ob
      = .ok m) :
    boxGood m := by
  cases ob with
  | arr xs => exact absurd hg (fun hc => boxGood_not_arr xs hc)
  | obj afs =>
    have hnd : (afs.map Prod.fst).Nodup := hg.2 afs rfl
    have hty : (jsGetD (.obj afs) "Type").truthy = true :=
      hg.1 (by simp [JVal.truthy])
    cases hlt : lookupField afs "Type" with
    | none =>
      rw [jsGetD, hlt] at hty
      simp [JVal.truthy] at hty
    | some t =>
      have httr : t.truthy = true := by
        rw [jsGetD, hlt] at hty
        simpa using hty
      rw [mergeConfig_obj_obj] at hm
      obtain ⟨rs, hrs, hrnd⟩ := mergeEntries_nodup afs _ m (by simp) hm
      have hasT : hasOwn
          (JVal.obj [("Type", .str "AWSBox"), ("Properties", .obj extras)])
          "Type" = true := by
        simp [hasOwn, lookupField]
      obtain ⟨mt, hmt, hget⟩ := mergeEntries_at_key afs _ m "Type" t
        (by simp [isObjKind]) hnd (lookup_some_mem afs "Type" t hlt) hasT hm
      have hnbT : jsGetD
          (JVal.obj [("Type", .str "AWSBox"), ("Properties", .obj extras)])
          "Type" = .str "AWSBox" := by
        simp [jsGetD, lookupField]
      rw [hnbT, mergeConfig_incoming_wins (.str "AWSBox") t
        (Or.inl (by simp [JVal.typeofObject]))] at hmt
      obtain rfl : t = mt := Except.ok.inj hmt
      constructor
      · intro _
        rw [hget]
        exact httr
      · intro rs2 hrs2
        rw [hrs] at hrs2
        obtain rfl : rs2 = rs := (JVal.obj.inj hrs2).symm
        exact hrnd
  | undef =>
    rw [mergeConfig_incoming_wins _ _
      (Or.inr (Or.inr (by simp [JVal.typeofObject])))] at hm
    obtain rfl : JVal.undef = m := Except.ok.inj hm
    exact hg
  | null =>
    rw [mergeConfig_incoming_wins _ _ (Or.inr (Or.inl rfl))] at hm
    obtain rfl : JVal.null = m := Except.ok.inj hm
    exact hg
  | bool b =>
    rw [mergeConfig_incoming_wins _ _
      (Or.inr (Or.inr (by simp [JVal.typeofObject])))] at hm
    obtain rfl : JVal.bool b = m := Except.ok.inj hm
    exact hg
  | num n =>
    rw [mergeConfig_incoming_wins _ _
      (Or.inr (Or.inr (by simp [JVal.typeofObject])))] at hm
    obtain rfl : JVal.num n = m := Except.ok.inj hm
    exact hg
  | str s =>
    rw [mergeConfig_incoming_wins _ _
      (Or.inr (Or.inr (by simp [JVal.typeofObject])))] at hm
    obtain rfl : JVal.str s = m := Except.ok.inj hm
    exact hg

theorem newBox_good (extras : List (String × JVal)) :
    boxGood (.obj [("Type", .str "AWSBox"), ("Properties", .obj extras)]) := by
  constructor
  · intro _
    simp [jsGetD, lookupField, JVal.truthy]
  · intro afs hafs
    obtain rfl : afs = [("Type", .str "AWSBox"), ("Properties", .obj extras)] :=
      (JVal.obj.inj hafs).symm
    simp

end MergeGoodLemmas

section UpgradeStepLemmas


theorem mapValues_upgradeBox_id (gs : List (String × JVal))
    (h : ∀ p ∈ gs, upgradeBox p.2 = p.2) :
    gs.map (fun kv => (kv.1, upgradeBox kv.2)) = gs := by
  induction gs with
  | nil => rfl
  | cons p rest ih =>
    obtain ⟨k1, v1⟩ := p
    simp only [List.map_cons]
    rw [h (k1, v1) (List.mem_cons_self _ _)]
    rw [ih (fun q hq => h q (List.mem_cons_of_mem _ hq))]

theorem mapElems_upgradeBox_id (ys : List JVal)
    (h : ∀ v ∈ ys, upgradeBox v = v) : ys.map upgradeBox = ys := by
  induction ys with
  | nil => rfl
  | cons v rest ih =>
    simp only [List.map_cons]
    rw [h v (List.mem_cons_self _ _)]
    rw [ih (fun w hw => h w (List.mem_cons_of_mem _ hw))]

theorem setDefaultBoxenType_post (o o1 : List (String × JVal))
    (hwf : wf (.obj o) = true) (h : setDefaultBoxenType o = .ok o1) :
    ∃ B1, o1 = setField o "Boxen" B1 ∧ boxenGood B1 := by
  cases hlb : lookupField o "Boxen" with
  | none =>
    simp only [setDefaultBoxenType, hlb] at h
    simp only [List.map_nil] at h
    refine ⟨.obj [], (Except.ok.inj h).symm, Or.inl ⟨[], rfl, ?_⟩⟩
    intro p hp
    simp at hp
  | some v =>
    have hwv : wf v = true :=
      wf_obj_value o "Boxen" v hwf (lookup_some_mem o "Boxen" v hlb)
    by_cases htv : v.truthy
    · cases v with
      | obj fs =>
        simp only [setDefaultBoxenType, hlb] at h
        rw [if_pos htv] at h
        refine ⟨.obj (fs.map (fun kv => (kv.1, upgradeBox kv.2))),
          (Except.ok.inj h).symm, Or.inl ⟨_, rfl, ?_⟩⟩
        intro p hp
        rcases List.mem_map.mp hp with ⟨q, hq, hpq⟩
        rw [← hpq]
        exact upgradeBox_good q.2 (wf_obj_value fs q.1 q.2 hwv (by simpa using hq))
      | arr xs =>
        simp only [setDefaultBoxenType, hlb] at h
        rw [if_pos htv] at h
        refine ⟨.arr (xs.map upgradeBox), (Except.ok.inj h).symm,
          Or.inr ⟨_, rfl, ?_⟩⟩
        intro w hw
        rcases List.mem_map.mp hw with ⟨x, hx, hwx⟩
        rw [← hwx]
        have hwfx : wf x = true := by
          rw [show wf (.arr xs) = wfElems xs from rfl] at hwv
          exact wfElems_mem xs x hwv hx
        exact upgradeBox_good x hwfx
      | undef => simp [JVal.truthy] at htv
      | null => simp [JVal.truthy] at htv
      | bool b =>
        simp only [setDefaultBoxenType, hlb] at h
        rw [if_pos htv] at h
        cases h
      | num n =>
        simp only [setDefaultBoxenType, hlb] at h
        rw [if_pos htv] at h
        cases h
      | str s =>
        simp only [setDefaultBoxenType, hlb] at h
        rw [if_pos htv] at h
        cases h
    · simp only [setDefaultBoxenType, hlb] at h
      rw [if_neg htv] at h
      simp only [List.map_nil] at h
      refine ⟨.obj [], (Except.ok.inj h).symm, Or.inl ⟨[], rfl, ?_⟩⟩
      intro p hp
      simp at hp

theorem createDefaultBoxen_post (o1 o2 : List (String × JVal)) (B1 : JVal)
    (hlb : lookupField o1 "Boxen" = some B1) (hBg : boxenGood B1)
    (h : createDefaultBoxen o1 = .ok o2) :
    (∃ B2, lookupField o2 "Boxen" = some B2 ∧ boxenGood B2) ∧
    (∀ p ∈ o2, CONFIG_TOP_LEVEL_KEYS.contains p.1 = true) := by
  by_cases hempty :
      (o1.filter (fun kv => !(CONFIG_TOP_LEVEL_KEYS.contains kv.1))).isEmpty
  · simp only [createDefaultBoxen] at h
    rw [if_pos hempty] at h
    obtain rfl : o1 = o2 := Except.ok.inj h
    refine ⟨⟨B1, hlb, hBg⟩, ?_⟩
    intro p hp
    have hnil : o1.filter (fun kv => !(CONFIG_TOP_LEVEL_KEYS.contains kv.1))
        = [] := by
      simpa [List.isEmpty_iff] using hempty
    have := List.filter_eq_nil_iff.mp hnil p hp
    simpa using this
  · simp only [createDefaultBoxen] at h
    rw [if_neg hempty] at h
    have hkept : lookupField
        (o1.filter (fun kv => CONFIG_TOP_LEVEL_KEYS.contains kv.1)) "Boxen"
        = some B1 := by
      rw [lookup_filter_keys o1 (fun k => CONFIG_TOP_LEVEL_KEYS.contains k)
        "Boxen" (by decide)]
      exact hlb
    rw [hkept] at h
    simp only [Option.getD_some] at h
    rcases hBg with ⟨gs, rfl, hgood⟩ | ⟨ys, rfl, hgood⟩
    · rw [if_neg (by simp [beqJVal])] at h
      cases hAWS : lookupField gs "AWSBox" with
      | none =>
        have horig : jsGetD (JVal.obj gs) "AWSBox" = .undef := by
          simp [jsGetD, hAWS]
        rw [horig, if_pos (show beqJVal JVal.undef JVal.undef = true from rfl)] at h
        obtain rfl : o2 = setField
            (o1.filter (fun kv => CONFIG_TOP_LEVEL_KEYS.contains kv.1)) "Boxen"
            (jsSet (.obj gs)
              "AWSBox" (.obj [("Type", .str "AWSBox"), ("Properties",
                .obj (o1.filter (fun kv =>
                  !(CONFIG_TOP_LEVEL_KEYS.contains kv.1))))])) :=
          (Except.ok.inj h).symm
        constructor
        · refine ⟨_, lookup_setField_self _ _ _, Or.inl ⟨_, rfl, ?_⟩⟩
          intro p hp
          rcases values_setField_mem gs "AWSBox" _ p hp with hp2 | hp2
          · rw [hp2]
            exact newBox_good _
          · exact hgood p hp2
        · intro p hp
          rcases keys_setField_mem _ "Boxen" _ p hp with hk | hk
          · rcases List.mem_map.mp hk with ⟨q, hq, hq1⟩
            have := List.of_mem_filter hq
            rw [← hq1]
            exact this
          · rw [hk]
            decide
      | some ob =>
        have horig : jsGetD (JVal.obj gs) "AWSBox" = ob := by
          simp [jsGetD, hAWS]
        rw [horig] at h
        by_cases hobu : ob = JVal.undef
        · rw [if_pos ((beqJVal_iff ob JVal.undef).mpr hobu)] at h
          obtain rfl : o2 = setField
              (o1.filter (fun kv => CONFIG_TOP_LEVEL_KEYS.contains kv.1))
              "Boxen" (jsSet (.obj gs) "AWSBox"
                (.obj [("Type", .str "AWSBox"), ("Properties",
                  .obj (o1.filter (fun kv =>
                    !(CONFIG_TOP_LEVEL_KEYS.contains kv.1))))])) :=
            (Except.ok.inj h).symm
          constructor
          · refine ⟨_, lookup_setField_self _ _ _, Or.inl ⟨_, rfl, ?_⟩⟩
            intro p hp
            rcases values_setField_mem gs "AWSBox" _ p hp with hp2 | hp2
            · rw [hp2]
              exact newBox_good _
            · exact hgood p hp2
          · intro p hp
            rcases keys_setField_mem _ "Boxen" _ p hp with hk | hk
            · rcases List.mem_map.mp hk with ⟨q, hq, hq1⟩
              have := List.of_mem_filter hq
              rw [← hq1]
              exact this
            · rw [hk]
              decide
        · rw [if_neg (fun hc => hobu ((beqJVal_iff ob JVal.undef).mp hc))] at h
          cases hm : mergeConfig
              (.obj [("Type", .str "AWSBox"), ("Properties",
                .obj (o1.filter (fun kv =>
                  !(CONFIG_TOP_LEVEL_KEYS.contains kv.1))))]) ob with
          | error e =>
            rw [hm] at h
            simp [Bind.bind, Except.bind] at h
          | ok m =>
            rw [hm] at h
            simp only [Bind.bind, Except.bind] at h
            obtain rfl : o2 = setField
                (o1.filter (fun kv => CONFIG_TOP_LEVEL_KEYS.contains kv.1))
                "Boxen" (jsSet (.obj gs) "AWSBox" m) :=
              (Except.ok.inj h).symm
            have hobg : boxGood ob :=
              hgood ("AWSBox", ob) (lookup_some_mem gs "AWSBox" ob hAWS)
            have hmg : boxGood m := merge_newBox_good _ ob m hobg hm
            constructor
            · refine ⟨_, lookup_setField_self _ _ _, Or.inl ⟨_, rfl, ?_⟩⟩
              intro p hp
              rcases values_setField_mem gs "AWSBox" m p hp with hp2 | hp2
              · rw [hp2]
                exact hmg
              · exact hgood p hp2
            · intro p hp
              rcases keys_setField_mem _ "Boxen" _ p hp with hk | hk
              · rcases List.mem_map.mp hk with ⟨q, hq, hq1⟩
                have := List.of_mem_filter hq
                rw [← hq1]
                exact this
              · rw [hk]
                decide
    · rw [if_neg (by simp [beqJVal])] at h
      have horig : jsGetD (JVal.arr ys) "AWSBox" = .undef := by
        rw [jsGetD, natIdx_AWSBox]
      rw [horig, if_pos (show beqJVal JVal.undef JVal.undef = true from rfl)] at h
      have hset : jsSet (JVal.arr ys) "AWSBox"
          (.obj [("Type", .str "AWSBox"), ("Properties",
            .obj (o1.filter (fun kv =>
              !(CONFIG_TOP_LEVEL_KEYS.contains kv.1))))]) = .arr ys := by
        rw [jsSet, natIdx_AWSBox]
      rw [hset] at h
      obtain rfl : o2 = setField
          (o1.filter (fun kv => CONFIG_TOP_LEVEL_KEYS.contains kv.1)) "Boxen"
          (.arr ys) := (Except.ok.inj h).symm
      constructor
      · exact ⟨_, lookup_setField_self _ _ _, Or.inr ⟨ys, rfl, hgood⟩⟩
      · intro p hp
        rcases keys_setField_mem _ "Boxen" _ p hp with hk | hk
        · rcases List.mem_map.mp hk with ⟨q, hq, hq1⟩
          have := List.of_mem_filter hq
          rw [← hq1]
          exact this
        · rw [hk]
          decide


theorem upgrade_fixed_point (o2 : List (String × JVal)) (B2 : JVal)
    (hlb : lookupField o2 "Boxen" = some B2) (hBg : boxenGood B2)
    (hcanon : ∀ p ∈ o2, CONFIG_TOP_LEVEL_KEYS.contains p.1 = true) :
    upgradeFromAWSBoxConfig o2 = .ok o2 := by
  have hstep1 : setDefaultBoxenType o2 = .ok o2 := by
    rcases hBg with ⟨gs, rfl, hgood⟩ | ⟨ys, rfl, hgood⟩
    · simp only [setDefaultBoxenType, hlb]
      rw [if_pos (by simp [JVal.truthy])]
      show Except.ok (setField o2 "Boxen"
        (.obj (gs.map (fun kv => (kv.1, upgradeBox kv.2))))) = Except.ok o2
      rw [mapValues_upgradeBox_id gs
        (fun p hp => upgradeBox_fixed p.2 (hgood p hp))]
      rw [setField_self_eq o2 "Boxen" (.obj gs) hlb]
    · simp only [setDefaultBoxenType, hlb]
      rw [if_pos (by simp [JVal.truthy])]
      show Except.ok (setField o2 "Boxen" (.arr (ys.map upgradeBox)))
        = Except.ok o2
      rw [mapElems_upgradeBox_id ys
        (fun v hv => upgradeBox_fixed v (hgood v hv))]
      rw [setField_self_eq o2 "Boxen" (.arr ys) hlb]
  have hnil : o2.filter (fun kv => !(CONFIG_TOP_LEVEL_KEYS.contains kv.1))
      = [] := by
    rw [List.filter_eq_nil_iff]
    intro p hp
    have hc : p.1 ∈ CONFIG_TOP_LEVEL_KEYS := by simpa using hcanon p hp
    simp [hc]
  have hstep2 : createDefaultBoxen o2 = .ok o2 := by
    simp only [createDefaultBoxen, hnil]
    simp
  rw [upgradeFromAWSBoxConfig, hstep1]
  simp [Bind.bind, Except.bind, hstep2]

/-- C5: the legacy-schema upgrade is idempotent.  For every document
(rooted at a mapping, with the duplicate-free keys every JavaScript
runtime value has), applying `upgradeFromAWSBoxConfig` twice — with the
second application consuming the first's outcome, and errors propagating —
produces exactly the same outcome as applying it once. -/
theorem c5_upgrade_idempotent (o : List (String × JVal))
    (hwf : wf (.obj o) = true) :
    (upgradeFromAWSBoxConfig o).bind upgradeFromAWSBoxConfig
      = upgradeFromAWSBoxConfig o := by
  cases hu : upgradeFromAWSBoxConfig o with
  | error e => rfl
  | ok o2 =>
    have hu2 := hu
    rw [upgradeFromAWSBoxConfig] at hu2
    cases h1 : setDefaultBoxenType o with
    | error e =>
      rw [h1] at hu2
      simp [Bind.bind, Except.bind] at hu2
    | ok o1 =>
      rw [h1] at hu2
      simp only [Bind.bind, Except.bind] at hu2
      obtain ⟨B1, ho1, hB1⟩ := setDefaultBoxenType_post o o1 hwf h1
      have hlb1 : lookupField o1 "Boxen" = some B1 := by
        rw [ho1]
        exact lookup_setField_self o "Boxen" B1
      obtain ⟨⟨B2, hlb2, hB2⟩, hcanon⟩ :=
        createDefaultBoxen_post o1 o2 B1 hlb1 hB1 hu2
      have hfix := upgrade_fixed_point o2 B2 hlb2 hB2 hcanon
      show Except.bind (Except.ok o2) upgradeFromAWSBoxConfig = Except.ok o2
      simp [Except.bind, hfix]

/-- C5 witness: idempotence at the concrete legacy document
`{processes: ["server.js"]}`. -/
theorem c5_upgrade_idempotent_witness :
    (upgradeFromAWSBoxConfig [("processes", .arr [.str "server.js"])]).bind
        upgradeFromAWSBoxConfig
      = upgradeFromAWSBoxConfig [("processes", .arr [.str "server.js"])] :=
  c5_upgrade_idempotent [("processes", .arr [.str "server.js"])] (by decide)

end UpgradeStepLemmas




end Awsboxen
